import Mathlib

/-!
# Verification of the `fs_rollback` staging-and-commit engine

Shallow embedding of the `Rollback` transactional filesystem session
(`src/rollback.rs`, helpers in `src/rollback/ext.rs`, backups in
`src/rollback/backup.rs`, errors in `src/error.rs`).

Modelling conventions:

* A path spelling is a structure `FsPath` carrying the canonical identity
  `id : Nat` of the filesystem entry the spelling resolves to, the canonical
  identity `parent` of its parent directory, and the literal `spelling`
  string. Two differently-spelled paths that alias the same physical entry
  (for example `"x"` and `"./x"`) share the same `id` but differ in
  `spelling`; exact (`HashMap` key / `Vec::contains`) comparison is
  structural equality, while `same_file::is_same_file` compares `id`s and
  requires both entries to exist (it reports an error, mapped to `false` by
  `unwrap_or(false)`, when either path does not exist).
* The filesystem `FS` maps canonical identities to file contents
  (`files : Nat → Option String`) and keeps the set of existing directories
  (`dirs : List Nat`). Fresh temp-file identities are drawn from a counter
  `cnt`; every identity already in use is below `cnt`. Environmental
  failures of the external primitives (read-only directories, unwritable
  targets, a full temp dir) are injected through the `fail*` fields, which
  no operation ever mutates.
* The thread-per-item fan-out of the noted-files commit phase is
  linearised: items are processed in registration order, each item
  performing backup-creation, push, overwrite exactly as the spawned
  closure in the source does, and the phase result is the last failing
  item's error (each joined `Err` overwrites `result` in the source). The
  sequential `for` loops of the new-dir and new-file phases are modelled
  directly with early return.
* `tempfile` Drop-cleanup of staging files at the end of `commit` is not
  modelled: staging identities are disjoint from every path the claims
  observe.
-/

/-- Model of `Error` from `src/error.rs`. The `IO` variant of the source is
rendered as `IOErr`; it carries the OS error text. -/
inductive Error where
  | AlreadyNoted (p : String)
  | Commit (p : String) (e : String)
  | IOErr (e : String)
  | NewItemAlreadyExists (p : String)
  | NotADir (p : String)
  | NotAFile (p : String)
  | RepeatedNewDir (p : String)
  | RepeatedNewFile (p : String)
deriving DecidableEq, Repr

/-- A path spelling: canonical identity of the target, canonical identity of
the parent directory, and the literal spelling. -/
structure FsPath where
  id : Nat
  parent : Nat
  spelling : String
deriving DecidableEq, Repr

/-- The file name component of a spelling: the characters after the last
`/`, with the special components `.` and `..` having no file name
(mirroring `std::path::Path::file_name`). -/
def fileNameOf (s : String) : String :=
  let n := String.mk (s.toList.foldl (fun acc c => if c = '/' then [] else acc ++ [c]) [])
  if n = "." ∨ n = ".." then "" else n

/-- Whether `Path::extension()` is `Some` for this spelling: the file name
has a `.` that is not its first character. -/
def hasExtension (s : String) : Bool :=
  ((fileNameOf s).toList.drop 1).contains '.'

/-- The filesystem state, together with the fault-injection sets describing
which external primitive calls fail for environmental reasons. -/
structure FS where
  files : Nat → Option String
  dirs : List Nat
  cnt : Nat
  failTempDefault : Bool
  failTempIn : List Nat
  failCreate : List Nat
  failCopyTo : List Nat

/-- Content of the file with canonical identity `i`, if it is a file. -/
def FS.content (fs : FS) (i : Nat) : Option String := fs.files i

/-- `Path::is_file`. -/
def FS.isFile (fs : FS) (i : Nat) : Bool := (fs.files i).isSome

/-- `Path::exists`: the identity is a file or a directory. -/
def FS.pathExists (fs : FS) (i : Nat) : Bool := fs.isFile i || fs.dirs.contains i

/-- Overwrite (or create) the file `i` with content `c`. -/
def FS.setFile (fs : FS) (i : Nat) (c : String) : FS :=
  { fs with files := fun j => if j = i then some c else fs.files j }

/-- Remove the file `i` (no-op when absent, as `remove_file`'s result is
ignored by the callers modelled here). -/
def FS.eraseFile (fs : FS) (i : Nat) : FS :=
  { fs with files := fun j => if j = i then none else fs.files j }

/-- `std::fs::copy(src, dst)`: fails when the source is not a readable file
or the destination is unwritable; otherwise writes the source's bytes to
the destination, creating it if needed. -/
def fsCopy (src dst : Nat) (fs : FS) : Except String FS :=
  match fs.files src with
  | none => .error "No such file or directory"
  | some c =>
    if dst ∈ fs.failCopyTo then .error "Permission denied"
    else .ok (fs.setFile dst c)

/-- `std::fs::File::create(path)`: truncating create of an empty file. -/
def fsCreateFile (i : Nat) (fs : FS) : Except String FS :=
  if i ∈ fs.failCreate then .error "Permission denied"
  else .ok (fs.setFile i "")

/-- `std::fs::create_dir_all(path)`. -/
def fsCreateDirAll (i : Nat) (fs : FS) : Except String FS :=
  if i ∈ fs.failCreate then .error "Permission denied"
  else .ok { fs with dirs := i :: fs.dirs }

/-- `std::fs::remove_dir_all(path)` with the result ignored. -/
def FS.eraseDir (fs : FS) (i : Nat) : FS :=
  { fs with dirs := fs.dirs.filter (fun j => j ≠ i) }

/-- `NamedTempFile::new()`: a fresh empty file in the default temp dir. -/
def newTempDefault (fs : FS) : Except String (Nat × FS) :=
  if fs.failTempDefault then .error "Permission denied"
  else .ok (fs.cnt, { (fs.setFile fs.cnt "") with cnt := fs.cnt + 1 })

/-- `NamedTempFile::new_in(dir)`: a fresh empty file inside `dir`. -/
def newTempIn (dir : Nat) (fs : FS) : Except String (Nat × FS) :=
  if dir ∈ fs.failTempIn then .error "Permission denied"
  else .ok (fs.cnt, { (fs.setFile fs.cnt "") with cnt := fs.cnt + 1 })

/-- `NamedTempFile::persist(original)`: same-filesystem rename of the temp
file onto the original; `none` models the `Err` branch (temp file gone). -/
def fsPersist (src dst : Nat) (fs : FS) : Option FS :=
  match fs.files src with
  | none => none
  | some c => some ((fs.setFile dst c).eraseFile src)

/-- The caller writing its intended content to a staging path
(`std::fs::write`). -/
def fsWrite (i : Nat) (c : String) (fs : FS) : FS := fs.setFile i c

/-- `same_file::is_same_file(a, b).unwrap_or(false)`: both entries exist
and resolve to the same canonical identity. -/
def isSameFile (fs : FS) (a b : FsPath) : Bool :=
  fs.pathExists a.id && fs.pathExists b.id && (a.id == b.id)

/-- Model of `Backup` from `src/rollback/backup.rs`: the temp copy's
identity, the directory it was allocated in, and the original's identity. -/
structure Backup where
  bid : Nat
  dir : Nat
  original : Nat
deriving DecidableEq, Repr

namespace Backup

/-- `Backup::new(original)`: allocate a temp file in the original's parent
directory (the path is prefixed with the current dir, so the parent always
denotes a directory) and copy the original's bytes into it. On failure the
partially-created temp file is dropped, leaving the filesystem unchanged. -/
def new (p : FsPath) (fs : FS) : Except String (Backup × FS) :=
  match newTempIn p.parent fs with
  | .error e => .error e
  | .ok (t, fs1) =>
    match fsCopy p.id t fs1 with
    | .error e => .error e
    | .ok fs2 => .ok ({ bid := t, dir := p.parent, original := p.id }, fs2)

/-- Outcome of an operation that `panic!`s instead of returning an error. -/
inductive POr (α : Type) where
  | panicked (msg : String)
  | ok (a : α)

/-- `Backup::rollback(self)`: persist the backup over the original. The
source discharges the `Err` branch with `.expect(..)`, i.e. a process
abort, modelled by `POr.panicked`. -/
def rollbackChecked (b : Backup) (fs : FS) : POr FS :=
  match fsPersist b.bid b.original fs with
  | some fs' => .ok fs'
  | none => .panicked "Generated backups guarantee that both original and backup exist"

/-- Total state transformer used to compose `rollback` calls inside
`commit`; the panic branch (unreachable there, since every backup's temp
file still exists when it is rolled back) leaves the state unchanged. -/
def rollbackApply (b : Backup) (fs : FS) : FS :=
  match fsPersist b.bid b.original fs with
  | some fs' => fs'
  | none => fs

end Backup

/-- Model of the `Rollback` session state (`src/rollback.rs`): noted files
(original spelling ↦ staging temp identity), pending new files, pending new
directories. Maps are association lists in registration order. -/
structure Rollback where
  noted : List (FsPath × Nat)
  new_files : List (FsPath × Nat)
  new_dirs : List FsPath
deriving DecidableEq, Repr

namespace Rollback

/-- `Rollback::default()`. -/
def empty : Rollback := { noted := [], new_files := [], new_dirs := [] }

/-- `Rollback::note_file(original)` (`src/rollback.rs`): reject non-files,
reject originals already noted under any spelling of the same entry,
otherwise allocate a staging temp file, copy the original's bytes into it
and record the mapping. Returns the mutated session, the filesystem, and
the error if any. -/
def note_file (rb : Rollback) (original : FsPath) (fs : FS) :
    Rollback × FS × Option Error :=
  if ¬ fs.isFile original.id then
    (rb, fs, some (.NotAFile original.spelling))
  else if rb.noted.any (fun kv => isSameFile fs original kv.1) then
    (rb, fs, some (.AlreadyNoted original.spelling))
  else
    match newTempDefault fs with
    | .error e => (rb, fs, some (.IOErr e))
    | .ok (t, fs1) =>
      match fsCopy original.id t fs1 with
      | .error e => (rb, fs, some (.IOErr e))
      | .ok fs2 => ({ rb with noted := rb.noted ++ [(original, t)] }, fs2, none)

/-- `Rollback::new_file(path)`: existence check, exact-key duplicate check,
file-shape check, then allocate an empty staging temp file and record the
mapping. -/
def new_file (rb : Rollback) (p : FsPath) (fs : FS) :
    Rollback × FS × Option Error :=
  if fs.pathExists p.id then
    (rb, fs, some (.NewItemAlreadyExists p.spelling))
  else if rb.new_files.any (fun kv => kv.1 == p) then
    (rb, fs, some (.AlreadyNoted p.spelling))
  else if ¬ hasExtension p.spelling then
    (rb, fs, some (.NotAFile p.spelling))
  else
    match newTempDefault fs with
    | .error e => (rb, fs, some (.IOErr e))
    | .ok (t, fs1) => ({ rb with new_files := rb.new_files ++ [(p, t)] }, fs1, none)

/-- `Rollback::new_dir(path)`: existence check, exact duplicate check,
dir-shape check, then record the target (no temp file involved). -/
def new_dir (rb : Rollback) (p : FsPath) (fs : FS) :
    Rollback × FS × Option Error :=
  if fs.pathExists p.id then
    (rb, fs, some (.NewItemAlreadyExists p.spelling))
  else if rb.new_dirs.contains p then
    (rb, fs, some (.AlreadyNoted p.spelling))
  else if p.spelling = "" ∨ hasExtension p.spelling then
    (rb, fs, some (.NotADir p.spelling))
  else
    ({ rb with new_dirs := rb.new_dirs ++ [p] }, fs, none)

/-- `Rollback::get_noted_file(path)`: exact-key lookup first, then a
`same_file` equivalence scan over the noted keys. -/
def get_noted_file (rb : Rollback) (p : FsPath) (fs : FS) : Option Nat :=
  match rb.noted.find? (fun kv => kv.1 == p) with
  | some kv => some kv.2
  | none => (rb.noted.find? (fun kv => isSameFile fs kv.1 p)).map (fun kv => kv.2)

/-- `Rollback::get_new_file(path)`: exact-key lookup only. -/
def get_new_file (rb : Rollback) (p : FsPath) : Option Nat :=
  (rb.new_files.find? (fun kv => kv.1 == p)).map (fun kv => kv.2)

end Rollback

/-- The phase-A result of one noted item (the body of the spawned closure
in `commit_noted_files`): create a backup of the original, push it into the
accumulator, then overwrite the original with the staging content. The
backup stays pushed even when the overwrite fails. -/
def commitNotedStep (fs : FS) (bks : List Backup) (item : FsPath × Nat) :
    FS × List Backup × Option Error :=
  match Backup.new item.1 fs with
  | .error e => (fs, bks, some (.Commit item.1.spelling e))
  | .ok (b, fs1) =>
    match fsCopy item.2 item.1.id fs1 with
    | .error e => (fs1, bks ++ [b], some (.Commit item.1.spelling e))
    | .ok fs2 => (fs2, bks ++ [b], none)

/-- Error combination at the join barrier: each joined `Err` overwrites
`result`, so a later item's error wins over an earlier one. -/
def combineRes (later earlier : Option Error) : Option Error :=
  match later with
  | some e => some e
  | none => earlier

/-- `commit_noted_files` (`src/rollback/ext.rs`): every noted item is
processed (a failing item does not cancel its siblings), the accumulated
backups are always returned, and the overall result is the last failing
item's error. -/
def commit_noted_files : List (FsPath × Nat) → FS → List Backup →
    FS × List Backup × Option Error
  | [], fs, bks => (fs, bks, none)
  | item :: rest, fs, bks =>
    let s := commitNotedStep fs bks item
    let r := commit_noted_files rest s.1 s.2.1
    (r.1, r.2.1, combineRes r.2.2 s.2.2)

/-- `commit_new_dirs` (`src/rollback/ext.rs`): sequential loop; for every
registered directory check existence first (`RepeatedNewDir`), then create
the directory tree, returning at the first failure. -/
def commit_new_dirs : List FsPath → FS → FS × Option Error
  | [], fs => (fs, none)
  | d :: rest, fs =>
    if fs.pathExists d.id then (fs, some (.RepeatedNewDir d.spelling))
    else
      match fsCreateDirAll d.id fs with
      | .error e => (fs, some (.Commit d.spelling e))
      | .ok fs1 => commit_new_dirs rest fs1

/-- `commit_new_files` (`src/rollback/ext.rs`): sequential loop; existence
check (`RepeatedNewFile`), create the empty target, copy the staging
content into it, returning at the first failure. -/
def commit_new_files : List (FsPath × Nat) → FS → FS × Option Error
  | [], fs => (fs, none)
  | (p, t) :: rest, fs =>
    if fs.pathExists p.id then (fs, some (.RepeatedNewFile p.spelling))
    else
      match fsCreateFile p.id fs with
      | .error e => (fs, some (.Commit p.spelling e))
      | .ok fs1 =>
        match fsCopy t p.id fs1 with
        | .error e => (fs1, some (.Commit p.spelling e))
        | .ok fs2 => commit_new_files rest fs2

/-- `rollback_new_dirs`: best-effort removal of every registered new
directory. -/
def rollback_new_dirs (rb : Rollback) (fs : FS) : FS :=
  rb.new_dirs.foldl (fun fs d => fs.eraseDir d.id) fs

/-- `rollback_new_files`: best-effort removal of every registered new
file. -/
def rollback_new_files (rb : Rollback) (fs : FS) : FS :=
  rb.new_files.foldl (fun fs kv => fs.eraseFile kv.1.id) fs

/-- `backups.into_iter().for_each(|b| b.rollback())`. -/
def rollbackBackups (bks : List Backup) (fs : FS) : FS :=
  bks.foldl (fun fs b => b.rollbackApply fs) fs

/-- `Rollback::commit` (`src/rollback.rs`): phase A (noted files), on
failure roll back every collected backup and abort; phase B (new dirs), on
failure roll back backups and created dirs; phase C (new files), on
failure roll back backups, created files and created dirs. -/
def Rollback.commit (rb : Rollback) (fs : FS) : FS × Option Error :=
  match commit_noted_files rb.noted fs [] with
  | (fsA, bks, some e) => (rollbackBackups bks fsA, some e)
  | (fsA, bks, none) =>
    match commit_new_dirs rb.new_dirs fsA with
    | (fsB, some e) => (rollback_new_dirs rb (rollbackBackups bks fsB), some e)
    | (fsB, none) =>
      match commit_new_files rb.new_files fsB with
      | (fsC, some e) =>
        (rollback_new_dirs rb (rollback_new_files rb (rollbackBackups bks fsC)), some e)
      | (fsC, none) => (fsC, none)

/-- Canonical identities of the noted originals. -/
def notedIds (rb : Rollback) : List Nat := rb.noted.map (fun kv => kv.1.id)

/-- Canonical identities of the registered new-file targets. -/
def newFileIds (rb : Rollback) : List Nat := rb.new_files.map (fun kv => kv.1.id)

/-- Canonical identities of the registered new-dir targets. -/
def newDirIds (rb : Rollback) : List Nat := rb.new_dirs.map (fun d => d.id)

/-- Staging temp identities owned by the session. -/
def stagingIds (rb : Rollback) : List Nat :=
  rb.noted.map (fun kv => kv.2) ++ rb.new_files.map (fun kv => kv.2)

/-- Session/filesystem well-formedness: the invariants that registration
establishes for every reachable session. Noted originals are distinct
existing files, staging temps exist and are disjoint from every target,
new-file and new-dir targets do not exist yet and are disjoint from the
other registries (duplicates *within* the new-file and new-dir registries
are allowed: that is exactly the aliasing race deferred to commit), and
every identity in use is below the fresh-identity counter. -/
def WF (rb : Rollback) (fs : FS) : Prop :=
  (notedIds rb).Nodup
  ∧ (∀ kv ∈ rb.noted, fs.isFile kv.1.id = true)
  ∧ (∀ t ∈ stagingIds rb, fs.isFile t = true)
  ∧ (∀ i ∈ newFileIds rb, fs.pathExists i = false)
  ∧ (∀ i ∈ newDirIds rb, fs.pathExists i = false)
  ∧ (∀ i ∈ newFileIds rb, i ∉ notedIds rb ∧ i ∉ newDirIds rb)
  ∧ (∀ i ∈ newDirIds rb, i ∉ notedIds rb)
  ∧ (∀ t ∈ stagingIds rb, t ∉ notedIds rb ∧ t ∉ newFileIds rb ∧ t ∉ newDirIds rb)
  ∧ (∀ i ∈ notedIds rb ++ newFileIds rb ++ newDirIds rb ++ stagingIds rb, i < fs.cnt)

instance (rb : Rollback) (fs : FS) : Decidable (WF rb fs) := by
  unfold WF; infer_instance

/-- Post-failure restoration property for noted files: every noted original
holds its pre-commit bytes (including absence when it was absent). -/
def RestoredNoted (rb : Rollback) (fs0 fs1 : FS) : Prop :=
  ∀ kv ∈ rb.noted, fs1.files kv.1.id = fs0.files kv.1.id

/-- Post-failure absence property: no new file or new directory registered
in this session exists. -/
def NoNewPaths (rb : Rollback) (fs1 : FS) : Prop :=
  (∀ kv ∈ rb.new_files, fs1.pathExists kv.1.id = false)
  ∧ (∀ d ∈ rb.new_dirs, fs1.pathExists d.id = false)

/-! ## Basic lemmas about the filesystem primitives -/

/-- The fault-injection environment of a state; no operation mutates it. -/
def FS.env (fs : FS) : Bool × List Nat × List Nat × List Nat :=
  (fs.failTempDefault, fs.failTempIn, fs.failCreate, fs.failCopyTo)

theorem env_failCreate {fs fs' : FS} (h : fs.env = fs'.env) :
    fs.failCreate = fs'.failCreate :=
  congrArg (fun x => x.2.2.1) h

theorem env_failCopyTo {fs fs' : FS} (h : fs.env = fs'.env) :
    fs.failCopyTo = fs'.failCopyTo :=
  congrArg (fun x => x.2.2.2) h


@[simp] theorem setFile_files (fs : FS) (i : Nat) (c : String) (j : Nat) :
    (fs.setFile i c).files j = if j = i then some c else fs.files j := rfl

@[simp] theorem setFile_dirs (fs : FS) (i : Nat) (c : String) :
    (fs.setFile i c).dirs = fs.dirs := rfl

@[simp] theorem setFile_cnt (fs : FS) (i : Nat) (c : String) :
    (fs.setFile i c).cnt = fs.cnt := rfl

@[simp] theorem setFile_env (fs : FS) (i : Nat) (c : String) :
    (fs.setFile i c).env = fs.env := rfl

@[simp] theorem eraseFile_files (fs : FS) (i : Nat) (j : Nat) :
    (fs.eraseFile i).files j = if j = i then none else fs.files j := rfl

@[simp] theorem eraseFile_dirs (fs : FS) (i : Nat) : (fs.eraseFile i).dirs = fs.dirs := rfl

@[simp] theorem eraseFile_cnt (fs : FS) (i : Nat) : (fs.eraseFile i).cnt = fs.cnt := rfl

@[simp] theorem eraseFile_env (fs : FS) (i : Nat) : (fs.eraseFile i).env = fs.env := rfl

@[simp] theorem eraseDir_files (fs : FS) (i : Nat) (j : Nat) :
    (fs.eraseDir i).files j = fs.files j := rfl

@[simp] theorem eraseDir_cnt (fs : FS) (i : Nat) : (fs.eraseDir i).cnt = fs.cnt := rfl

@[simp] theorem eraseDir_env (fs : FS) (i : Nat) : (fs.eraseDir i).env = fs.env := rfl

theorem eraseDir_mem (fs : FS) (i j : Nat) :
    j ∈ (fs.eraseDir i).dirs ↔ j ∈ fs.dirs ∧ j ≠ i := by
  simp [FS.eraseDir, List.mem_filter]

/-- Characterization of a successful `Backup::new` for an original whose
identity is already in use (below the fresh counter). -/
theorem Backup.new_ok {p : FsPath} {fs : FS} {b : Backup} {fs' : FS}
    (hid : p.id < fs.cnt) (h : Backup.new p fs = .ok (b, fs')) :
    b.bid = fs.cnt ∧ b.dir = p.parent ∧ b.original = p.id ∧
    ∃ c, fs.files p.id = some c ∧
      fs'.cnt = fs.cnt + 1 ∧ fs'.dirs = fs.dirs ∧ fs'.env = fs.env ∧
      (∀ j, fs'.files j = if j = fs.cnt then some c else fs.files j) := by
  by_cases hti : p.parent ∈ fs.failTempIn
  · simp [Backup.new, newTempIn, hti] at h
  · rcases hv : fs.files p.id with _ | c
    · simp [Backup.new, newTempIn, fsCopy, hti, FS.setFile, Nat.ne_of_lt hid, hv] at h
    · by_cases hcnt : fs.cnt ∈ fs.failCopyTo
      · simp [Backup.new, newTempIn, fsCopy, hti, FS.setFile, Nat.ne_of_lt hid, hv, hcnt] at h
      · simp only [Backup.new, newTempIn, fsCopy, hti, FS.setFile, Nat.ne_of_lt hid, hv, hcnt,
          if_false, ite_false, if_neg] at h
        injection h with h
        injection h with hb hfs
        refine ⟨by rw [← hb], by rw [← hb], by rw [← hb], c, rfl, by rw [← hfs],
          by rw [← hfs], by rw [← hfs]; rfl, ?_⟩
        rw [← hfs]
        intro j
        by_cases hj : j = fs.cnt <;> simp [hj]

theorem fsCopy_ok {src dst : Nat} {fs fs' : FS} (h : fsCopy src dst fs = .ok fs') :
    ∃ c, fs.files src = some c ∧ dst ∉ fs.failCopyTo ∧ fs' = fs.setFile dst c := by
  unfold fsCopy at h
  rcases hv : fs.files src with _ | c
  · rw [hv] at h; exact absurd h (by simp)
  · rw [hv] at h
    by_cases hdst : dst ∈ fs.failCopyTo
    · simp [hdst] at h
    · simp only [hdst, ite_false, if_neg] at h
      injection h with h
      exact ⟨c, rfl, hdst, h.symm⟩

theorem commitNotedStep_backup_err {item : FsPath × Nat} {fs : FS} {bks : List Backup}
    {e : String} (h : Backup.new item.1 fs = .error e) :
    commitNotedStep fs bks item = (fs, bks, some (.Commit item.1.spelling e)) := by
  simp [commitNotedStep, h]

theorem commitNotedStep_copy_err {item : FsPath × Nat} {fs fs1 : FS} {bks : List Backup}
    {b : Backup} {e : String} (hB : Backup.new item.1 fs = .ok (b, fs1))
    (hC : fsCopy item.2 item.1.id fs1 = .error e) :
    commitNotedStep fs bks item = (fs1, bks ++ [b], some (.Commit item.1.spelling e)) := by
  simp [commitNotedStep, hB, hC]

theorem commitNotedStep_ok {item : FsPath × Nat} {fs fs1 fs2 : FS} {bks : List Backup}
    {b : Backup} (hB : Backup.new item.1 fs = .ok (b, fs1))
    (hC : fsCopy item.2 item.1.id fs1 = .ok fs2) :
    commitNotedStep fs bks item = (fs2, bks ++ [b], none) := by
  simp [commitNotedStep, hB, hC]

theorem commit_noted_files_cons (item : FsPath × Nat) (rest : List (FsPath × Nat))
    (fs : FS) (bks : List Backup) :
    commit_noted_files (item :: rest) fs bks =
      ((commit_noted_files rest (commitNotedStep fs bks item).1
          (commitNotedStep fs bks item).2.1).1,
       (commit_noted_files rest (commitNotedStep fs bks item).1
          (commitNotedStep fs bks item).2.1).2.1,
       combineRes
         (commit_noted_files rest (commitNotedStep fs bks item).1
            (commitNotedStep fs bks item).2.1).2.2
         (commitNotedStep fs bks item).2.2) := rfl

theorem combineRes_eq_none {a b : Option Error} (h : combineRes a b = none) :
    a = none ∧ b = none := by
  cases a with
  | none => exact ⟨rfl, h⟩
  | some e => exact absurd h (by simp [combineRes])

/-- Identities of the originals in a noted-files list. -/
def origsOf (L : List (FsPath × Nat)) : List Nat := L.map (fun kv => kv.1.id)

@[simp] theorem origsOf_nil : origsOf [] = [] := rfl

@[simp] theorem origsOf_cons (item : FsPath × Nat) (rest : List (FsPath × Nat)) :
    origsOf (item :: rest) = item.1.id :: origsOf rest := rfl

/-- Workhorse characterization of the noted-files phase: backups are only
appended, fresh identities stay fresh, untouched files keep their bytes,
every collected backup still holds its original's pre-phase bytes at the
end of the phase, every overwritten original has a backup collected for it,
and on overall success every original holds its staging bytes. -/
theorem phaseA_char (L : List (FsPath × Nat)) :
    ∀ (fs : FS) (bks : List Backup) (fs' : FS) (bks' : List Backup) (r : Option Error),
    commit_noted_files L fs bks = (fs', bks', r) →
    (origsOf L).Nodup →
    (∀ kv ∈ L, kv.1.id < fs.cnt ∧ kv.2 < fs.cnt ∧ kv.2 ∉ origsOf L) →
    ∃ nbks : List Backup,
      bks' = bks ++ nbks ∧
      fs.cnt ≤ fs'.cnt ∧
      fs'.dirs = fs.dirs ∧
      fs'.env = fs.env ∧
      (∀ j, j < fs.cnt → j ∉ origsOf L → fs'.files j = fs.files j) ∧
      List.Sublist (nbks.map (fun b => b.original)) (origsOf L) ∧
      (∀ b ∈ nbks, fs.cnt ≤ b.bid ∧ b.bid < fs'.cnt ∧
        fs'.files b.bid = fs.files b.original ∧ (fs.files b.original).isSome = true) ∧
      nbks.Pairwise (fun a c => a.bid < c.bid) ∧
      (∀ kv ∈ L, fs'.files kv.1.id = fs.files kv.1.id ∨ ∃ b ∈ nbks, b.original = kv.1.id) ∧
      (r = none → ∀ kv ∈ L, fs'.files kv.1.id = fs.files kv.2) := by
  induction L with
  | nil =>
    intro fs bks fs' bks' r h _ _
    rw [show commit_noted_files [] fs bks = (fs, bks, none) from rfl,
      Prod.mk.injEq, Prod.mk.injEq] at h
    obtain ⟨h1, h2, h3⟩ := h
    subst h1; subst h2; subst h3
    exact ⟨[], by simp, le_refl _, rfl, rfl, fun j _ _ => rfl, List.nil_sublist _,
      fun b hb => absurd hb (List.not_mem_nil b), List.Pairwise.nil,
      fun kv hkv => absurd hkv (List.not_mem_nil kv), fun _ kv hkv => absurd hkv (List.not_mem_nil kv)⟩
  | cons item rest ih =>
    intro fs bks fs' bks' r h hnd hids
    obtain ⟨p, t⟩ := item
    rw [commit_noted_files_cons] at h
    have hidp : p.id < fs.cnt := (hids (p, t) (List.mem_cons_self _ _)).1
    have hidt : t < fs.cnt := (hids (p, t) (List.mem_cons_self _ _)).2.1
    have htno : t ∉ origsOf ((p, t) :: rest) := (hids (p, t) (List.mem_cons_self _ _)).2.2
    have hnd' := List.nodup_cons.mp (by simpa using hnd)
    have hpnotin : p.id ∉ origsOf rest := hnd'.1
    have hndrest : (origsOf rest).Nodup := hnd'.2
    have hidsrest : ∀ kv ∈ rest, kv.1.id < fs.cnt ∧ kv.2 < fs.cnt ∧ kv.2 ∉ origsOf rest := by
      intro kv hkv
      refine ⟨(hids kv (List.mem_cons_of_mem _ hkv)).1,
        (hids kv (List.mem_cons_of_mem _ hkv)).2.1, fun hmem => ?_⟩
      exact (hids kv (List.mem_cons_of_mem _ hkv)).2.2 (by simp [hmem])
    have horiglt : ∀ j ∈ origsOf rest, j < fs.cnt := by
      intro j hj
      simp only [origsOf, List.mem_map] at hj
      obtain ⟨kv, hkv, rfl⟩ := hj
      exact (hids kv (List.mem_cons_of_mem _ hkv)).1
    have hcntno : fs.cnt ∉ origsOf rest := fun hmem => absurd (horiglt _ hmem) (lt_irrefl _)
    cases hB : Backup.new p fs with
    | error eB =>
      rw [commitNotedStep_backup_err hB] at h
      rcases hR : commit_noted_files rest fs bks with ⟨fs2, bks2, r2⟩
      rw [hR] at h
      rw [Prod.mk.injEq, Prod.mk.injEq] at h
      obtain ⟨h1, h2, h3⟩ := h
      subst h1; subst h2; subst h3
      obtain ⟨nbks, i1, i2, i3, i4, i5, i6, i7, i8, i9, _⟩ :=
        ih fs bks fs2 bks2 r2 hR hndrest hidsrest
      refine ⟨nbks, i1, i2, i3, i4, ?_, i6.cons _, i7, i8, ?_, ?_⟩
      · intro j hj hjno
        exact i5 j hj (fun hmem => hjno (by simp [hmem]))
      · intro kv hkv
        rcases List.mem_cons.mp hkv with hkv | hkv
        · subst hkv
          exact Or.inl (i5 p.id hidp hpnotin)
        · rcases i9 kv hkv with hL | hex
          · exact Or.inl hL
          · exact Or.inr hex
      · intro hr
        exfalso
        cases r2 <;> simp [combineRes] at hr
    | ok pr =>
      obtain ⟨b, fs1⟩ := pr
      obtain ⟨hbid, hdir, horig, c, hvc, hcnt1, hdirs1, henv1, hfiles1⟩ := Backup.new_ok hidp hB
      have hcntlt : fs.cnt ≤ fs1.cnt := by rw [hcnt1]; exact Nat.le_succ _
      cases hC : fsCopy t p.id fs1 with
      | error eC =>
        rw [commitNotedStep_copy_err hB hC] at h
        rcases hR : commit_noted_files rest fs1 (bks ++ [b]) with ⟨fs2, bks2, r2⟩
        rw [hR] at h
        rw [Prod.mk.injEq, Prod.mk.injEq] at h
        obtain ⟨h1, h2, h3⟩ := h
        subst h1; subst h2; subst h3
        have hidsrest1 : ∀ kv ∈ rest, kv.1.id < fs1.cnt ∧ kv.2 < fs1.cnt ∧ kv.2 ∉ origsOf rest := by
          intro kv hkv
          exact ⟨lt_of_lt_of_le (hidsrest kv hkv).1 hcntlt,
            lt_of_lt_of_le (hidsrest kv hkv).2.1 hcntlt, (hidsrest kv hkv).2.2⟩
        obtain ⟨nbks, i1, i2, i3, i4, i5, i6, i7, i8, i9, _⟩ :=
          ih fs1 (bks ++ [b]) fs2 bks2 r2 hR hndrest hidsrest1
        refine ⟨b :: nbks, by simp [i1], le_trans hcntlt i2, by rw [i3, hdirs1],
          by rw [i4, henv1], ?_, ?_, ?_, ?_, ?_, ?_⟩
        · intro j hj hjno
          have hjne : j ≠ p.id := fun hjp => hjno (by simp [hjp])
          have hjnr : j ∉ origsOf rest := fun hmem => hjno (by simp [hmem])
          rw [i5 j (lt_of_lt_of_le hj hcntlt) hjnr, hfiles1 j,
            if_neg (Nat.ne_of_lt hj)]
        · simp only [List.map_cons, horig, origsOf_cons]
          exact i6.cons₂ _
        · intro b' hb'
          rcases List.mem_cons.mp hb' with hb'eq | hb'
          · rw [hb'eq]
            have hbmain : fs2.files b.bid = some c := by
              rw [hbid, i5 fs.cnt (by rw [hcnt1]; exact Nat.lt_succ_self _) hcntno,
                hfiles1, if_pos rfl]
            refine ⟨le_of_eq hbid.symm, ?_, ?_, ?_⟩
            · rw [hbid]
              exact lt_of_lt_of_le (by rw [hcnt1]; exact Nat.lt_succ_self _) i2
            · rw [hbmain, horig, hvc]
            · rw [horig, hvc]; rfl
          · obtain ⟨j1, j2, j3, j4⟩ := i7 b' hb'
            have hmemr : b'.original ∈ origsOf rest := i6.subset (List.mem_map_of_mem _ hb')
            have hne1 : b'.original ≠ fs.cnt := Nat.ne_of_lt (horiglt _ hmemr)
            have hne2 : b'.original ≠ p.id := fun hh => hpnotin (hh ▸ hmemr)
            have hval : fs1.files b'.original = fs.files b'.original := by
              rw [hfiles1, if_neg hne1]
            exact ⟨le_trans hcntlt j1, j2, by rw [j3, hval], by rw [← hval]; exact j4⟩
        · refine List.pairwise_cons.mpr ⟨?_, i8⟩
          intro b' hb'
          have := (i7 b' hb').1
          rw [hbid]
          rw [hcnt1] at this
          exact Nat.lt_of_succ_le this
        · intro kv hkv
          rcases List.mem_cons.mp hkv with hkv | hkv
          · subst hkv
            exact Or.inr ⟨b, List.mem_cons_self _ _, horig⟩
          · rcases i9 kv hkv with hL | ⟨b', hb', hb'o⟩
            · refine Or.inl ?_
              have hne1 : kv.1.id ≠ fs.cnt := Nat.ne_of_lt (hidsrest kv hkv).1
              rw [hL, hfiles1, if_neg hne1]
            · exact Or.inr ⟨b', List.mem_cons_of_mem _ hb', hb'o⟩
        · intro hr
          exfalso
          cases r2 <;> simp [combineRes] at hr
      | ok fs2 =>
        obtain ⟨c', hvt', hdstok, hfs2⟩ := fsCopy_ok hC
        have hvt : fs.files t = some c' := by
          rw [hfiles1, if_neg (Nat.ne_of_lt hidt)] at hvt'
          exact hvt'
        rw [commitNotedStep_ok hB hC] at h
        rcases hR : commit_noted_files rest fs2 (bks ++ [b]) with ⟨fs3, bks3, r2⟩
        rw [hR] at h
        rw [Prod.mk.injEq, Prod.mk.injEq] at h
        obtain ⟨h1, h2, h3⟩ := h
        subst h1; subst h2; subst h3
        have hf2 : ∀ j, fs2.files j =
            if j = p.id then some c' else if j = fs.cnt then some c else fs.files j := by
          intro j
          rw [hfs2]
          by_cases hj : j = p.id <;> simp [hj, hfiles1]
        have hc2 : fs2.cnt = fs.cnt + 1 := by rw [hfs2]; simpa using hcnt1
        have hd2 : fs2.dirs = fs.dirs := by rw [hfs2]; simpa using hdirs1
        have he2 : fs2.env = fs.env := by rw [hfs2]; simpa using henv1
        have hcnt2 : fs.cnt ≤ fs2.cnt := by rw [hc2]; exact Nat.le_succ _
        have hidsrest2 : ∀ kv ∈ rest, kv.1.id < fs2.cnt ∧ kv.2 < fs2.cnt ∧ kv.2 ∉ origsOf rest := by
          intro kv hkv
          exact ⟨lt_of_lt_of_le (hidsrest kv hkv).1 hcnt2,
            lt_of_lt_of_le (hidsrest kv hkv).2.1 hcnt2, (hidsrest kv hkv).2.2⟩
        obtain ⟨nbks, i1, i2, i3, i4, i5, i6, i7, i8, i9, i10⟩ :=
          ih fs2 (bks ++ [b]) fs3 bks3 r2 hR hndrest hidsrest2
        refine ⟨b :: nbks, by simp [i1], le_trans hcnt2 i2, by rw [i3, hd2],
          by rw [i4, he2], ?_, ?_, ?_, ?_, ?_, ?_⟩
        · intro j hj hjno
          have hjne : j ≠ p.id := fun hjp => hjno (by simp [hjp])
          have hjnr : j ∉ origsOf rest := fun hmem => hjno (by simp [hmem])
          rw [i5 j (lt_of_lt_of_le hj hcnt2) hjnr, hf2, if_neg hjne,
            if_neg (Nat.ne_of_lt hj)]
        · simp only [List.map_cons, horig, origsOf_cons]
          exact i6.cons₂ _
        · intro b' hb'
          rcases List.mem_cons.mp hb' with hb'eq | hb'
          · rw [hb'eq]
            have hbmain : fs3.files b.bid = some c := by
              rw [hbid, i5 fs.cnt (by rw [hc2]; exact Nat.lt_succ_self _) hcntno, hf2,
                if_neg (Ne.symm (Nat.ne_of_lt hidp)), if_pos rfl]
            refine ⟨le_of_eq hbid.symm, ?_, ?_, ?_⟩
            · rw [hbid]
              exact lt_of_lt_of_le (by rw [hc2]; exact Nat.lt_succ_self _) i2
            · rw [hbmain, horig, hvc]
            · rw [horig, hvc]; rfl
          · obtain ⟨j1, j2, j3, j4⟩ := i7 b' hb'
            have hmemr : b'.original ∈ origsOf rest := i6.subset (List.mem_map_of_mem _ hb')
            have hne1 : b'.original ≠ fs.cnt := Nat.ne_of_lt (horiglt _ hmemr)
            have hne2 : b'.original ≠ p.id := fun hh => hpnotin (hh ▸ hmemr)
            have hval : fs2.files b'.original = fs.files b'.original := by
              rw [hf2, if_neg hne2, if_neg hne1]
            exact ⟨le_trans hcnt2 j1, j2, by rw [j3, hval], by rw [← hval]; exact j4⟩
        · refine List.pairwise_cons.mpr ⟨?_, i8⟩
          intro b' hb'
          have := (i7 b' hb').1
          rw [hbid]
          rw [hc2] at this
          exact Nat.lt_of_succ_le this
        · intro kv hkv
          rcases List.mem_cons.mp hkv with hkv | hkv
          · subst hkv
            exact Or.inr ⟨b, List.mem_cons_self _ _, horig⟩
          · rcases i9 kv hkv with hL | ⟨b', hb', hb'o⟩
            · by_cases hkvp : kv.1.id = p.id
              · refine Or.inr ⟨b, List.mem_cons_self _ _, ?_⟩
                rw [horig, hkvp]
              · refine Or.inl ?_
                have hne1 : kv.1.id ≠ fs.cnt := Nat.ne_of_lt (hidsrest kv hkv).1
                rw [hL, hf2, if_neg hkvp, if_neg hne1]
            · exact Or.inr ⟨b', List.mem_cons_of_mem _ hb', hb'o⟩
        · intro hr kv hkv
          have hr2 : r2 = none := by
            cases r2 with
            | none => rfl
            | some e => simp [combineRes] at hr
          rcases List.mem_cons.mp hkv with hkv | hkv
          · subst hkv
            have := i5 p.id (lt_of_lt_of_le hidp hcnt2) hpnotin
            rw [this, hf2, if_pos rfl, hvt]
          · have := i10 hr2 kv hkv
            have hne1 : kv.2 ≠ fs.cnt := Nat.ne_of_lt (hidsrest kv hkv).2.1
            have hne2 : kv.2 ≠ p.id := by
              intro hh
              exact (hids kv (List.mem_cons_of_mem _ hkv)).2.2 (by simp [hh])
            rw [this, hf2, if_neg hne2, if_neg hne1]

/-- Restoring a list of backups writes each original back to its backup's
bytes and touches nothing else, provided the backups target distinct
originals, their temp identities are distinct and disjoint from the
originals, and each temp file still exists. -/
theorem rollbackBackups_spec (bks : List Backup) :
    ∀ fs : FS,
    (bks.map (fun b => b.original)).Nodup →
    bks.Pairwise (fun a c => a.bid < c.bid) →
    (∀ b ∈ bks, ∀ b' ∈ bks, b.bid ≠ b'.original) →
    (∀ b ∈ bks, (fs.files b.bid).isSome = true) →
    (∀ b ∈ bks, (rollbackBackups bks fs).files b.original = fs.files b.bid) ∧
    (∀ j, (∀ b ∈ bks, j ≠ b.original ∧ j ≠ b.bid) →
      (rollbackBackups bks fs).files j = fs.files j) ∧
    (rollbackBackups bks fs).dirs = fs.dirs ∧
    (rollbackBackups bks fs).cnt = fs.cnt ∧
    (rollbackBackups bks fs).env = fs.env := by
  induction bks with
  | nil =>
    intro fs _ _ _ _
    exact ⟨fun b hb => absurd hb (List.not_mem_nil b), fun j _ => rfl, rfl, rfl, rfl⟩
  | cons b rest ih =>
    intro fs hnd hpw hsep hcont
    obtain ⟨cb, hcb⟩ := Option.isSome_iff_exists.mp (hcont b (List.mem_cons_self _ _))
    have hbneq : b.bid ≠ b.original :=
      hsep b (List.mem_cons_self _ _) b (List.mem_cons_self _ _)
    have happ : b.rollbackApply fs = (fs.setFile b.original cb).eraseFile b.bid := by
      unfold Backup.rollbackApply fsPersist
      rw [hcb]
    have hstep : rollbackBackups (b :: rest) fs =
        rollbackBackups rest ((fs.setFile b.original cb).eraseFile b.bid) := by
      show rollbackBackups rest (b.rollbackApply fs) = _
      rw [happ]
    set fs1 := (fs.setFile b.original cb).eraseFile b.bid with hfs1
    have hfs1f : ∀ j, fs1.files j =
        if j = b.bid then none else if j = b.original then some cb else fs.files j := by
      intro j; rfl
    have hndr : (rest.map (fun b => b.original)).Nodup := (List.nodup_cons.mp hnd).2
    have hbor : b.original ∉ rest.map (fun b => b.original) := (List.nodup_cons.mp hnd).1
    have hpwr : rest.Pairwise (fun a c => a.bid < c.bid) := (List.pairwise_cons.mp hpw).2
    have hblt : ∀ b' ∈ rest, b.bid < b'.bid := (List.pairwise_cons.mp hpw).1
    have hsepr : ∀ x ∈ rest, ∀ y ∈ rest, x.bid ≠ y.original := fun x hx y hy =>
      hsep x (List.mem_cons_of_mem _ hx) y (List.mem_cons_of_mem _ hy)
    have hcontr : ∀ b' ∈ rest, (fs1.files b'.bid).isSome = true := by
      intro b' hb'
      rw [hfs1f]
      rw [if_neg (Ne.symm (Nat.ne_of_lt (hblt b' hb'))),
        if_neg (hsep b' (List.mem_cons_of_mem _ hb') b (List.mem_cons_self _ _))]
      exact hcont b' (List.mem_cons_of_mem _ hb')
    obtain ⟨k1, k2, k3, k4, k5⟩ := ih fs1 hndr hpwr hsepr hcontr
    rw [hstep]
    refine ⟨?_, ?_, k3, k4, k5⟩
    · intro b' hb'
      rcases List.mem_cons.mp hb' with hb'eq | hb'
      · rw [hb'eq]
        have hframe : (rollbackBackups rest fs1).files b.original = fs1.files b.original := by
          refine k2 b.original (fun x hx => ⟨?_, ?_⟩)
          · intro hh
            exact hbor (hh ▸ List.mem_map_of_mem _ hx)
          · intro hh
            exact hsep x (List.mem_cons_of_mem _ hx) b (List.mem_cons_self _ _) hh.symm
        rw [hframe, hfs1f, if_neg (Ne.symm hbneq), if_pos rfl, hcb]
      · have := k1 b' hb'
        rw [this, hfs1f, if_neg (Ne.symm (Nat.ne_of_lt (hblt b' hb'))),
          if_neg (hsep b' (List.mem_cons_of_mem _ hb') b (List.mem_cons_self _ _))]
    · intro j hj
      have hframe := k2 j (fun x hx => hj x (List.mem_cons_of_mem _ hx))
      rw [hframe, hfs1f, if_neg (hj b (List.mem_cons_self _ _)).2,
        if_neg (hj b (List.mem_cons_self _ _)).1]

/-- The new-dirs phase never touches files or the counter and only adds
registered directory targets. -/
theorem commit_new_dirs_spec (D : List FsPath) :
    ∀ fs : FS,
    (∀ j, (commit_new_dirs D fs).1.files j = fs.files j) ∧
    (commit_new_dirs D fs).1.cnt = fs.cnt ∧
    (commit_new_dirs D fs).1.env = fs.env ∧
    ∃ added : List Nat, added ⊆ D.map (fun d => d.id) ∧
      (commit_new_dirs D fs).1.dirs = added ++ fs.dirs := by
  induction D with
  | nil =>
    intro fs
    exact ⟨fun j => rfl, rfl, rfl, [], by simp, rfl⟩
  | cons d rest ih =>
    intro fs
    by_cases hex : fs.pathExists d.id
    · rw [show commit_new_dirs (d :: rest) fs = (fs, some (.RepeatedNewDir d.spelling)) by
        simp [commit_new_dirs, hex]]
      exact ⟨fun j => rfl, rfl, rfl, [], by simp, rfl⟩
    · by_cases hfail : d.id ∈ fs.failCreate
      · rw [show commit_new_dirs (d :: rest) fs = (fs, some (.Commit d.spelling "Permission denied")) by
          simp [commit_new_dirs, hex, fsCreateDirAll, hfail]]
        exact ⟨fun j => rfl, rfl, rfl, [], by simp, rfl⟩
      · have hstep : commit_new_dirs (d :: rest) fs =
            commit_new_dirs rest { fs with dirs := d.id :: fs.dirs } := by
          simp [commit_new_dirs, hex, fsCreateDirAll, hfail]
        rw [hstep]
        obtain ⟨k1, k2, k3, added, ka, kd⟩ := ih { fs with dirs := d.id :: fs.dirs }
        refine ⟨k1, k2, k3, added ++ [d.id], ?_, by rw [kd]; simp⟩
        intro x hx
        rcases List.mem_append.mp hx with hx | hx
        · exact List.mem_cons_of_mem _ (ka hx)
        · simp at hx
          simp [hx]

/-- The new-files phase never touches directories or the counter, and only
writes registered new-file targets. -/
theorem commit_new_files_spec (NF : List (FsPath × Nat)) :
    ∀ fs : FS,
    (∀ j, j ∉ NF.map (fun kv => kv.1.id) → (commit_new_files NF fs).1.files j = fs.files j) ∧
    (commit_new_files NF fs).1.dirs = fs.dirs ∧
    (commit_new_files NF fs).1.cnt = fs.cnt ∧
    (commit_new_files NF fs).1.env = fs.env := by
  induction NF with
  | nil =>
    intro fs
    exact ⟨fun j _ => rfl, rfl, rfl, rfl⟩
  | cons item rest ih =>
    intro fs
    obtain ⟨p, t⟩ := item
    by_cases hex : fs.pathExists p.id
    · rw [show commit_new_files ((p, t) :: rest) fs = (fs, some (.RepeatedNewFile p.spelling)) by
        simp [commit_new_files, hex]]
      exact ⟨fun j _ => rfl, rfl, rfl, rfl⟩
    · by_cases hfail : p.id ∈ fs.failCreate
      · rw [show commit_new_files ((p, t) :: rest) fs =
            (fs, some (.Commit p.spelling "Permission denied")) by
          simp [commit_new_files, hex, fsCreateFile, hfail]]
        exact ⟨fun j _ => rfl, rfl, rfl, rfl⟩
      · cases hC : fsCopy t p.id (fs.setFile p.id "") with
        | error eC =>
          rw [show commit_new_files ((p, t) :: rest) fs =
              (fs.setFile p.id "", some (.Commit p.spelling eC)) by
            simp [commit_new_files, hex, fsCreateFile, hfail, hC]]
          refine ⟨fun j hj => ?_, rfl, rfl, rfl⟩
          have : j ≠ p.id := fun hh => hj (by simp [hh])
          simp [this]
        | ok fs2 =>
          obtain ⟨c', hv', hdst', hfs2⟩ := fsCopy_ok hC
          have hstep : commit_new_files ((p, t) :: rest) fs = commit_new_files rest fs2 := by
            simp [commit_new_files, hex, fsCreateFile, hfail, hC]
          rw [hstep]
          obtain ⟨k1, k2, k3, k4⟩ := ih fs2
          subst hfs2
          refine ⟨fun j hj => ?_, by rw [k2]; rfl, by rw [k3]; rfl, by rw [k4]; rfl⟩
          have hne : j ≠ p.id := fun hh => hj (by simp [hh])
          rw [k1 j (fun hh => hj (by simpa using Or.inr (by simpa using hh)))]
          simp [hne]

/-- Removing a list of files erases exactly those identities. -/
theorem eraseFiles_spec (L : List (FsPath × Nat)) :
    ∀ fs : FS,
    (∀ j, (L.foldl (fun fs kv => fs.eraseFile kv.1.id) fs).files j =
      if j ∈ L.map (fun kv => kv.1.id) then none else fs.files j) ∧
    (L.foldl (fun fs kv => fs.eraseFile kv.1.id) fs).dirs = fs.dirs ∧
    (L.foldl (fun fs kv => fs.eraseFile kv.1.id) fs).cnt = fs.cnt ∧
    (L.foldl (fun fs kv => fs.eraseFile kv.1.id) fs).env = fs.env := by
  induction L with
  | nil =>
    intro fs
    exact ⟨fun j => by simp, rfl, rfl, rfl⟩
  | cons kv rest ih =>
    intro fs
    obtain ⟨k1, k2, k3, k4⟩ := ih (fs.eraseFile kv.1.id)
    refine ⟨fun j => ?_, by simp only [List.foldl_cons]; rw [k2]; rfl,
      by simp only [List.foldl_cons]; rw [k3]; rfl,
      by simp only [List.foldl_cons]; rw [k4]; rfl⟩
    simp only [List.foldl_cons]
    rw [k1]
    by_cases hr : j ∈ rest.map (fun kv => kv.1.id)
    · simp [hr]
    · by_cases hk : j = kv.1.id <;> simp [hr, hk]

/-- Removing a list of directories erases exactly those identities from the
directory set and touches nothing else. -/
theorem eraseDirs_spec (L : List FsPath) :
    ∀ fs : FS,
    (∀ j, (L.foldl (fun fs d => fs.eraseDir d.id) fs).files j = fs.files j) ∧
    (L.foldl (fun fs d => fs.eraseDir d.id) fs).cnt = fs.cnt ∧
    (L.foldl (fun fs d => fs.eraseDir d.id) fs).env = fs.env ∧
    (∀ j, j ∈ (L.foldl (fun fs d => fs.eraseDir d.id) fs).dirs ↔
      j ∈ fs.dirs ∧ j ∉ L.map (fun d => d.id)) := by
  induction L with
  | nil =>
    intro fs
    exact ⟨fun j => rfl, rfl, rfl, fun j => by simp⟩
  | cons d rest ih =>
    intro fs
    obtain ⟨k1, k2, k3, k4⟩ := ih (fs.eraseDir d.id)
    refine ⟨fun j => by simp only [List.foldl_cons]; rw [k1 j]; rfl,
      by simp only [List.foldl_cons]; rw [k2]; rfl,
      by simp only [List.foldl_cons]; rw [k3]; rfl, fun j => ?_⟩
    simp only [List.foldl_cons]
    rw [k4 j, eraseDir_mem, List.map_cons]
    constructor
    · rintro ⟨⟨hj1, hj2⟩, hj3⟩
      refine ⟨hj1, fun hmem => ?_⟩
      rcases List.mem_cons.mp hmem with h | h
      · exact hj2 h
      · exact hj3 h
    · rintro ⟨hj1, hj2⟩
      refine ⟨⟨hj1, fun h => hj2 ?_⟩, fun h => hj2 (List.mem_cons_of_mem _ h)⟩
      rw [h]
      exact List.mem_cons_self _ _

theorem pathExists_eq_false {fs : FS} {i : Nat} :
    fs.pathExists i = false ↔ fs.files i = none ∧ i ∉ fs.dirs := by
  simp [FS.pathExists, FS.isFile, Option.isSome_iff_ne_none]

/-- Restoring the backups collected by the noted-files phase onto any later
state that still holds the backup bytes yields the pre-commit bytes on
every noted original, and leaves identities outside the noted originals and
the backup temps untouched. -/
theorem restore_core (rb : Rollback) (fs0 fsX : FS) (bks : List Backup)
    (hno : (origsOf rb.noted).Nodup)
    (horiglt : ∀ j ∈ origsOf rb.noted, j < fs0.cnt)
    (hsub : (bks.map (fun b => b.original)).Sublist (origsOf rb.noted))
    (hbid : ∀ b ∈ bks, fs0.cnt ≤ b.bid)
    (hpw : bks.Pairwise (fun a c => a.bid < c.bid))
    (hcontX : ∀ b ∈ bks, fsX.files b.bid = fs0.files b.original ∧
      (fs0.files b.original).isSome = true)
    (hcover : ∀ kv ∈ rb.noted, fsX.files kv.1.id = fs0.files kv.1.id ∨
      ∃ b ∈ bks, b.original = kv.1.id) :
    (∀ kv ∈ rb.noted, (rollbackBackups bks fsX).files kv.1.id = fs0.files kv.1.id) ∧
    (∀ j, j < fs0.cnt → j ∉ origsOf rb.noted →
      (rollbackBackups bks fsX).files j = fsX.files j) ∧
    (rollbackBackups bks fsX).dirs = fsX.dirs ∧
    (rollbackBackups bks fsX).cnt = fsX.cnt ∧
    (rollbackBackups bks fsX).env = fsX.env := by
  have hmemorig : ∀ b ∈ bks, b.original ∈ origsOf rb.noted := fun b hb =>
    hsub.subset (List.mem_map_of_mem _ hb)
  have hndorig : (bks.map (fun b => b.original)).Nodup := hsub.nodup hno
  have hsep : ∀ b ∈ bks, ∀ b' ∈ bks, b.bid ≠ b'.original := by
    intro b hb b' hb'
    have h1 := hbid b hb
    have h2 := horiglt _ (hmemorig b' hb')
    omega
  have hcont : ∀ b ∈ bks, (fsX.files b.bid).isSome = true := by
    intro b hb
    rw [(hcontX b hb).1]
    exact (hcontX b hb).2
  obtain ⟨r1, r2, r3, r4, r5⟩ := rollbackBackups_spec bks fsX hndorig hpw hsep hcont
  refine ⟨?_, ?_, r3, r4, r5⟩
  · intro kv hkv
    by_cases hex : ∃ b ∈ bks, b.original = kv.1.id
    · obtain ⟨b, hb, hbo⟩ := hex
      rw [← hbo, r1 b hb, (hcontX b hb).1]
    · push_neg at hex
      have hframe := r2 kv.1.id (fun b hb => ⟨fun hh => hex b hb hh.symm, by
        have h1 := hbid b hb
        have h2 := horiglt kv.1.id (List.mem_map_of_mem _ hkv)
        omega⟩)
      rw [hframe]
      rcases hcover kv hkv with hL | ⟨b, hb, hbo⟩
      · exact hL
      · exact absurd hbo (hex b hb)
  · intro j hj hjno
    refine r2 j (fun b hb => ⟨fun hh => hjno (hh ▸ hmemorig b hb), ?_⟩)
    have := hbid b hb
    omega

theorem commit_eq_phaseA_err {rb : Rollback} {fs0 fsA : FS} {bks : List Backup} {e : Error}
    (hA : commit_noted_files rb.noted fs0 [] = (fsA, bks, some e)) :
    rb.commit fs0 = (rollbackBackups bks fsA, some e) := by
  unfold Rollback.commit
  rw [hA]

theorem commit_eq_phaseB_err {rb : Rollback} {fs0 fsA fsB : FS} {bks : List Backup} {e : Error}
    (hA : commit_noted_files rb.noted fs0 [] = (fsA, bks, none))
    (hB : commit_new_dirs rb.new_dirs fsA = (fsB, some e)) :
    rb.commit fs0 = (rollback_new_dirs rb (rollbackBackups bks fsB), some e) := by
  unfold Rollback.commit
  rw [hA]
  dsimp only
  rw [hB]

theorem commit_eq_phaseC_err {rb : Rollback} {fs0 fsA fsB fsC : FS} {bks : List Backup}
    {e : Error}
    (hA : commit_noted_files rb.noted fs0 [] = (fsA, bks, none))
    (hB : commit_new_dirs rb.new_dirs fsA = (fsB, none))
    (hC : commit_new_files rb.new_files fsB = (fsC, some e)) :
    rb.commit fs0 =
      (rollback_new_dirs rb (rollback_new_files rb (rollbackBackups bks fsC)), some e) := by
  unfold Rollback.commit
  rw [hA]
  dsimp only
  rw [hB]
  dsimp only
  rw [hC]

theorem commit_eq_ok {rb : Rollback} {fs0 fsA fsB fsC : FS} {bks : List Backup}
    (hA : commit_noted_files rb.noted fs0 [] = (fsA, bks, none))
    (hB : commit_new_dirs rb.new_dirs fsA = (fsB, none))
    (hC : commit_new_files rb.new_files fsB = (fsC, none)) :
    rb.commit fs0 = (fsC, none) := by
  unfold Rollback.commit
  rw [hA]
  dsimp only
  rw [hB]
  dsimp only
  rw [hC]

theorem rollback_new_dirs_eq (rb : Rollback) (fs : FS) :
    rollback_new_dirs rb fs = rb.new_dirs.foldl (fun fs d => fs.eraseDir d.id) fs := rfl

theorem rollback_new_files_eq (rb : Rollback) (fs : FS) :
    rollback_new_files rb fs = rb.new_files.foldl (fun fs kv => fs.eraseFile kv.1.id) fs := rfl

/-- Central failure-atomicity theorem: whenever `commit` returns an error
on a well-formed session, every noted original holds its pre-commit bytes
and no registered new file or directory exists. -/
theorem commit_failure_core (rb : Rollback) (fs0 : FS) (hWF : WF rb fs0) :
    ∀ fs1 e, rb.commit fs0 = (fs1, some e) →
    RestoredNoted rb fs0 fs1 ∧ NoNewPaths rb fs1 := by
  obtain ⟨w1, w2, w3, w4, w5, w6, w7, w8, w9⟩ := hWF
  have hlt_noted : ∀ j ∈ notedIds rb, j < fs0.cnt := fun j hj =>
    w9 j (List.mem_append_left _ (List.mem_append_left _ (List.mem_append_left _ hj)))
  have hlt_nf : ∀ j ∈ newFileIds rb, j < fs0.cnt := fun j hj =>
    w9 j (List.mem_append_left _ (List.mem_append_left _ (List.mem_append_right _ hj)))
  have hlt_nd : ∀ j ∈ newDirIds rb, j < fs0.cnt := fun j hj =>
    w9 j (List.mem_append_left _ (List.mem_append_right _ hj))
  have hlt_stage : ∀ j ∈ stagingIds rb, j < fs0.cnt := fun j hj =>
    w9 j (List.mem_append_right _ hj)
  have hids : ∀ kv ∈ rb.noted, kv.1.id < fs0.cnt ∧ kv.2 < fs0.cnt ∧
      kv.2 ∉ origsOf rb.noted := by
    intro kv hkv
    have h2 : kv.2 ∈ stagingIds rb := List.mem_append_left _ (List.mem_map_of_mem _ hkv)
    exact ⟨hlt_noted _ (List.mem_map_of_mem _ hkv), hlt_stage _ h2, (w8 _ h2).1⟩
  have hnf_none : ∀ kv ∈ rb.new_files, fs0.files kv.1.id = none ∧ kv.1.id ∉ fs0.dirs :=
    fun kv hkv => pathExists_eq_false.mp (w4 _ (List.mem_map_of_mem _ hkv))
  have hnd_none : ∀ d ∈ rb.new_dirs, fs0.files d.id = none ∧ d.id ∉ fs0.dirs :=
    fun d hd => pathExists_eq_false.mp (w5 _ (List.mem_map_of_mem _ hd))
  have hnf_not_noted : ∀ kv ∈ rb.new_files, kv.1.id ∉ notedIds rb :=
    fun kv hkv => (w6 _ (List.mem_map_of_mem _ hkv)).1
  have hnf_not_nd : ∀ kv ∈ rb.new_files, kv.1.id ∉ newDirIds rb :=
    fun kv hkv => (w6 _ (List.mem_map_of_mem _ hkv)).2
  have hnd_not_noted : ∀ d ∈ rb.new_dirs, d.id ∉ notedIds rb :=
    fun d hd => w7 _ (List.mem_map_of_mem _ hd)
  have hnoted_not_nf : ∀ kv ∈ rb.noted, kv.1.id ∉ newFileIds rb :=
    fun kv hkv hmem => (w6 _ hmem).1 (List.mem_map_of_mem _ hkv)
  have hnd_not_nf : ∀ d ∈ rb.new_dirs, d.id ∉ newFileIds rb :=
    fun d hd hmem => (w6 _ hmem).2 (List.mem_map_of_mem _ hd)
  rcases hA : commit_noted_files rb.noted fs0 [] with ⟨fsA, bksA, rA⟩
  obtain ⟨nbks, a1, a2, a3, a4, a5, a6, a7, a8, a9, a10⟩ :=
    phaseA_char rb.noted fs0 [] fsA bksA rA hA w1 hids
  rw [List.nil_append] at a1
  subst a1
  have hbge : ∀ b ∈ bksA, fs0.cnt ≤ b.bid := fun b hb => (a7 b hb).1
  have hbval : ∀ b ∈ bksA, fsA.files b.bid = fs0.files b.original ∧
      (fs0.files b.original).isSome = true :=
    fun b hb => ⟨(a7 b hb).2.2.1, (a7 b hb).2.2.2⟩
  intro fs1 e h
  cases rA with
  | some eA =>
    rw [commit_eq_phaseA_err hA, Prod.mk.injEq] at h
    obtain ⟨h1, _⟩ := h
    subst h1
    obtain ⟨rc1, rc2, rc3, rc4, rc5⟩ :=
      restore_core rb fs0 fsA bksA w1 hlt_noted a6 hbge a8 hbval a9
    refine ⟨rc1, ?_, ?_⟩
    · intro kv hkv
      rw [pathExists_eq_false]
      refine ⟨?_, ?_⟩
      · rw [rc2 kv.1.id (hlt_nf _ (List.mem_map_of_mem _ hkv)) (hnf_not_noted kv hkv),
          a5 kv.1.id (hlt_nf _ (List.mem_map_of_mem _ hkv)) (hnf_not_noted kv hkv)]
        exact (hnf_none kv hkv).1
      · rw [rc3, a3]
        exact (hnf_none kv hkv).2
    · intro d hd
      rw [pathExists_eq_false]
      refine ⟨?_, ?_⟩
      · rw [rc2 d.id (hlt_nd _ (List.mem_map_of_mem _ hd)) (hnd_not_noted d hd),
          a5 d.id (hlt_nd _ (List.mem_map_of_mem _ hd)) (hnd_not_noted d hd)]
        exact (hnd_none d hd).1
      · rw [rc3, a3]
        exact (hnd_none d hd).2
  | none =>
    rcases hB : commit_new_dirs rb.new_dirs fsA with ⟨fsB, rB⟩
    have hBspec := commit_new_dirs_spec rb.new_dirs fsA
    rw [hB] at hBspec
    dsimp only at hBspec
    obtain ⟨b1, b2, b3, badded, bsub, bdirs⟩ := hBspec
    have hbvalB : ∀ b ∈ bksA, fsB.files b.bid = fs0.files b.original ∧
        (fs0.files b.original).isSome = true :=
      fun b hb => ⟨by rw [b1]; exact (hbval b hb).1, (hbval b hb).2⟩
    have hcoverB : ∀ kv ∈ rb.noted, fsB.files kv.1.id = fs0.files kv.1.id ∨
        ∃ b ∈ bksA, b.original = kv.1.id := by
      intro kv hkv
      rw [b1]
      exact a9 kv hkv
    cases rB with
    | some eB =>
      rw [commit_eq_phaseB_err hA hB, Prod.mk.injEq] at h
      obtain ⟨h1, _⟩ := h
      subst h1
      obtain ⟨rc1, rc2, rc3, rc4, rc5⟩ :=
        restore_core rb fs0 fsB bksA w1 hlt_noted a6 hbge a8 hbvalB hcoverB
      obtain ⟨d1, d2, d3, d4⟩ := eraseDirs_spec rb.new_dirs (rollbackBackups bksA fsB)
      rw [← rollback_new_dirs_eq] at d1 d2 d3 d4
      refine ⟨?_, ?_, ?_⟩
      · intro kv hkv
        rw [d1, rc1 kv hkv]
      · intro kv hkv
        rw [pathExists_eq_false]
        refine ⟨?_, fun hmem => ?_⟩
        · rw [d1, rc2 kv.1.id (hlt_nf _ (List.mem_map_of_mem _ hkv)) (hnf_not_noted kv hkv),
            b1, a5 kv.1.id (hlt_nf _ (List.mem_map_of_mem _ hkv)) (hnf_not_noted kv hkv)]
          exact (hnf_none kv hkv).1
        · obtain ⟨hin, _⟩ := (d4 kv.1.id).mp hmem
          rw [rc3, bdirs, a3] at hin
          rcases List.mem_append.mp hin with hin | hin
          · exact hnf_not_nd kv hkv (bsub hin)
          · exact (hnf_none kv hkv).2 hin
      · intro d hd
        rw [pathExists_eq_false]
        refine ⟨?_, fun hmem => ?_⟩
        · rw [d1, rc2 d.id (hlt_nd _ (List.mem_map_of_mem _ hd)) (hnd_not_noted d hd),
            b1, a5 d.id (hlt_nd _ (List.mem_map_of_mem _ hd)) (hnd_not_noted d hd)]
          exact (hnd_none d hd).1
        · obtain ⟨_, hout⟩ := (d4 d.id).mp hmem
          exact hout (List.mem_map_of_mem _ hd)
    | none =>
      rcases hC : commit_new_files rb.new_files fsB with ⟨fsC, rC⟩
      have hCspec := commit_new_files_spec rb.new_files fsB
      rw [hC] at hCspec
      dsimp only at hCspec
      obtain ⟨c1, c2, c3, c4⟩ := hCspec
      cases rC with
      | none =>
        rw [commit_eq_ok hA hB hC, Prod.mk.injEq] at h
        exact absurd h.2 (by simp)
      | some eC =>
        rw [commit_eq_phaseC_err hA hB hC, Prod.mk.injEq] at h
        obtain ⟨h1, _⟩ := h
        subst h1
        have hbid_not_nf : ∀ b ∈ bksA, b.bid ∉ newFileIds rb := by
          intro b hb hmem
          have := hlt_nf _ hmem
          have := hbge b hb
          omega
        have hbvalC : ∀ b ∈ bksA, fsC.files b.bid = fs0.files b.original ∧
            (fs0.files b.original).isSome = true :=
          fun b hb => ⟨by rw [c1 b.bid (hbid_not_nf b hb), b1]; exact (hbval b hb).1,
            (hbval b hb).2⟩
        have hcoverC : ∀ kv ∈ rb.noted, fsC.files kv.1.id = fs0.files kv.1.id ∨
            ∃ b ∈ bksA, b.original = kv.1.id := by
          intro kv hkv
          rw [c1 kv.1.id (hnoted_not_nf kv hkv), b1]
          exact a9 kv hkv
        obtain ⟨rc1, rc2, rc3, rc4, rc5⟩ :=
          restore_core rb fs0 fsC bksA w1 hlt_noted a6 hbge a8 hbvalC hcoverC
        obtain ⟨f1, f2, f3, f4⟩ := eraseFiles_spec rb.new_files (rollbackBackups bksA fsC)
        rw [← rollback_new_files_eq] at f1 f2 f3 f4
        obtain ⟨d1, d2, d3, d4⟩ :=
          eraseDirs_spec rb.new_dirs (rollback_new_files rb (rollbackBackups bksA fsC))
        rw [← rollback_new_dirs_eq] at d1 d2 d3 d4
        refine ⟨?_, ?_, ?_⟩
        · intro kv hkv
          rw [d1, f1,
            if_neg (show kv.1.id ∉ rb.new_files.map (fun kv => kv.1.id) from
              hnoted_not_nf kv hkv), rc1 kv hkv]
        · intro kv hkv
          rw [pathExists_eq_false]
          refine ⟨?_, fun hmem => ?_⟩
          · rw [d1, f1, if_pos (List.mem_map_of_mem _ hkv)]
          · obtain ⟨hin, _⟩ := (d4 kv.1.id).mp hmem
            rw [f2, rc3, c2, bdirs, a3] at hin
            rcases List.mem_append.mp hin with hin | hin
            · exact hnf_not_nd kv hkv (bsub hin)
            · exact (hnf_none kv hkv).2 hin
        · intro d hd
          rw [pathExists_eq_false]
          refine ⟨?_, fun hmem => ?_⟩
          · rw [d1, f1,
              if_neg (show d.id ∉ rb.new_files.map (fun kv => kv.1.id) from hnd_not_nf d hd),
              rc2 d.id (hlt_nd _ (List.mem_map_of_mem _ hd)) (hnd_not_noted d hd),
              c1 d.id (hnd_not_nf d hd), b1,
              a5 d.id (hlt_nd _ (List.mem_map_of_mem _ hd)) (hnd_not_noted d hd)]
            exact (hnd_none d hd).1
          · obtain ⟨_, hout⟩ := (d4 d.id).mp hmem
            exact hout (List.mem_map_of_mem _ hd)

/-- On a successful commit every noted original holds the bytes its staging
file had when `commit` was called. -/
theorem commit_success_noted (rb : Rollback) (fs0 : FS) (hWF : WF rb fs0) :
    ∀ fs1, rb.commit fs0 = (fs1, none) →
    ∀ kv ∈ rb.noted, fs1.files kv.1.id = fs0.files kv.2 := by
  obtain ⟨w1, _, _, _, _, w6, _, w8, w9⟩ := hWF
  have hlt_noted : ∀ j ∈ notedIds rb, j < fs0.cnt := fun j hj =>
    w9 j (List.mem_append_left _ (List.mem_append_left _ (List.mem_append_left _ hj)))
  have hlt_stage : ∀ j ∈ stagingIds rb, j < fs0.cnt := fun j hj =>
    w9 j (List.mem_append_right _ hj)
  have hids : ∀ kv ∈ rb.noted, kv.1.id < fs0.cnt ∧ kv.2 < fs0.cnt ∧
      kv.2 ∉ origsOf rb.noted := by
    intro kv hkv
    have h2 : kv.2 ∈ stagingIds rb := List.mem_append_left _ (List.mem_map_of_mem _ hkv)
    exact ⟨hlt_noted _ (List.mem_map_of_mem _ hkv), hlt_stage _ h2, (w8 _ h2).1⟩
  have hnoted_not_nf : ∀ kv ∈ rb.noted, kv.1.id ∉ newFileIds rb :=
    fun kv hkv hmem => (w6 _ hmem).1 (List.mem_map_of_mem _ hkv)
  intro fs1 h kv hkv
  rcases hA : commit_noted_files rb.noted fs0 [] with ⟨fsA, bksA, rA⟩
  cases rA with
  | some eA =>
    rw [commit_eq_phaseA_err hA, Prod.mk.injEq] at h
    exact absurd h.2 (by simp)
  | none =>
    rcases hB : commit_new_dirs rb.new_dirs fsA with ⟨fsB, rB⟩
    cases rB with
    | some eB =>
      rw [commit_eq_phaseB_err hA hB, Prod.mk.injEq] at h
      exact absurd h.2 (by simp)
    | none =>
      rcases hC : commit_new_files rb.new_files fsB with ⟨fsC, rC⟩
      cases rC with
      | some eC =>
        rw [commit_eq_phaseC_err hA hB hC, Prod.mk.injEq] at h
        exact absurd h.2 (by simp)
      | none =>
        rw [commit_eq_ok hA hB hC, Prod.mk.injEq] at h
        obtain ⟨h1, _⟩ := h
        subst h1
        obtain ⟨nbks, _, _, _, _, _, _, _, _, _, a10⟩ :=
          phaseA_char rb.noted fs0 [] fsA bksA none hA w1 hids
        have hBspec := commit_new_dirs_spec rb.new_dirs fsA
        rw [hB] at hBspec
        dsimp only at hBspec
        obtain ⟨b1, _, _, _, _, _⟩ := hBspec
        have hCspec := commit_new_files_spec rb.new_files fsB
        rw [hC] at hCspec
        dsimp only at hCspec
        obtain ⟨c1, _, _, _⟩ := hCspec
        rw [c1 kv.1.id (hnoted_not_nf kv hkv), b1, a10 rfl kv hkv]

/-- A successful `get_noted_file` lookup names a noted entry whose original
resolves to the queried path. -/
theorem get_noted_file_mem {rb : Rollback} {p : FsPath} {fs : FS} {t : Nat}
    (h : rb.get_noted_file p fs = some t) :
    ∃ kv ∈ rb.noted, kv.2 = t ∧ kv.1.id = p.id := by
  unfold Rollback.get_noted_file at h
  cases hf : rb.noted.find? (fun kv => kv.1 == p) with
  | some kv =>
    rw [hf] at h
    injection h with h
    refine ⟨kv, List.mem_of_find?_eq_some hf, h, ?_⟩
    have := List.find?_some hf
    rw [show kv.1 = p from by simpa using this]
  | none =>
    rw [hf] at h
    rcases Option.map_eq_some'.mp h with ⟨kv, hkv, hkv2⟩
    refine ⟨kv, List.mem_of_find?_eq_some hkv, hkv2, ?_⟩
    have := List.find?_some hkv
    unfold isSameFile at this
    simp only [Bool.and_eq_true, beq_iff_eq] at this
    exact this.2

theorem combineRes_none_right (a : Option Error) : combineRes a none = a := by
  cases a <;> rfl

theorem combineRes_assoc (a b c : Option Error) :
    combineRes (combineRes a b) c = combineRes a (combineRes b c) := by
  cases a <;> cases b <;> rfl

/-- The noted-files phase has no early exit: processing `L1 ++ L2` first
processes all of `L1` and then, whatever `L1`'s outcome, continues with all
of `L2` from the state `L1` left behind; the overall result is the later
error when both halves fail. -/
theorem commit_noted_files_append (L1 L2 : List (FsPath × Nat)) :
    ∀ (fs : FS) (bks : List Backup),
    commit_noted_files (L1 ++ L2) fs bks =
      ((commit_noted_files L2 (commit_noted_files L1 fs bks).1
          (commit_noted_files L1 fs bks).2.1).1,
       (commit_noted_files L2 (commit_noted_files L1 fs bks).1
          (commit_noted_files L1 fs bks).2.1).2.1,
       combineRes
         (commit_noted_files L2 (commit_noted_files L1 fs bks).1
            (commit_noted_files L1 fs bks).2.1).2.2
         (commit_noted_files L1 fs bks).2.2) := by
  induction L1 with
  | nil =>
    intro fs bks
    rcases hx : commit_noted_files L2 fs bks with ⟨f, b, r⟩
    rw [show ([] : List (FsPath × Nat)) ++ L2 = L2 from rfl,
      show commit_noted_files [] fs bks = (fs, bks, none) from rfl]
    dsimp only
    rw [hx, combineRes_none_right]
  | cons x L1' ih =>
    intro fs bks
    rw [List.cons_append, commit_noted_files_cons, ih, commit_noted_files_cons]
    dsimp only
    rw [combineRes_assoc]

theorem new_dir_ok {rb : Rollback} {p : FsPath} {fs : FS}
    (h1 : fs.pathExists p.id = false) (h2 : p ∉ rb.new_dirs)
    (h3 : ¬(p.spelling = "" ∨ hasExtension p.spelling = true)) :
    rb.new_dir p fs = ({ rb with new_dirs := rb.new_dirs ++ [p] }, fs, none) := by
  push_neg at h3
  simp [Rollback.new_dir, h1, h2, h3.1, h3.2]

theorem new_dir_exists_err {rb : Rollback} {p : FsPath} {fs : FS}
    (h1 : fs.pathExists p.id = true) :
    rb.new_dir p fs = (rb, fs, some (.NewItemAlreadyExists p.spelling)) := by
  simp [Rollback.new_dir, h1]

theorem new_dir_dup_err {rb : Rollback} {p : FsPath} {fs : FS}
    (h1 : fs.pathExists p.id = false) (h2 : p ∈ rb.new_dirs) :
    rb.new_dir p fs = (rb, fs, some (.AlreadyNoted p.spelling)) := by
  simp [Rollback.new_dir, h1, h2]

theorem new_file_exists_err {rb : Rollback} {p : FsPath} {fs : FS}
    (h1 : fs.pathExists p.id = true) :
    rb.new_file p fs = (rb, fs, some (.NewItemAlreadyExists p.spelling)) := by
  simp [Rollback.new_file, h1]

theorem new_file_dup_err {rb : Rollback} {p : FsPath} {fs : FS}
    (h1 : fs.pathExists p.id = false) (h2 : rb.new_files.any (fun kv => kv.1 == p) = true) :
    rb.new_file p fs = (rb, fs, some (.AlreadyNoted p.spelling)) := by
  simp [Rollback.new_file, h1, h2]

theorem WF_hids (rb : Rollback) (fs0 : FS) (hWF : WF rb fs0) :
    (origsOf rb.noted).Nodup ∧
    (∀ kv ∈ rb.noted, kv.1.id < fs0.cnt ∧ kv.2 < fs0.cnt ∧ kv.2 ∉ origsOf rb.noted) := by
  obtain ⟨w1, _, _, _, _, _, _, w8, w9⟩ := hWF
  refine ⟨w1, fun kv hkv => ?_⟩
  have h2 : kv.2 ∈ stagingIds rb := List.mem_append_left _ (List.mem_map_of_mem _ hkv)
  exact ⟨w9 _ (List.mem_append_left _ (List.mem_append_left _
      (List.mem_append_left _ (List.mem_map_of_mem _ hkv)))),
    w9 _ (List.mem_append_right _ h2), (w8 _ h2).1⟩

theorem rollbackBackups_dirs (bks : List Backup) :
    ∀ fs : FS, (rollbackBackups bks fs).dirs = fs.dirs := by
  induction bks with
  | nil => intro fs; rfl
  | cons b rest ih =>
    intro fs
    show (rollbackBackups rest (b.rollbackApply fs)).dirs = fs.dirs
    rw [ih]
    unfold Backup.rollbackApply fsPersist
    cases fs.files b.bid <;> rfl

theorem note_file_notfile_err {rb : Rollback} {p : FsPath} {fs : FS}
    (h : fs.isFile p.id = false) :
    rb.note_file p fs = (rb, fs, some (.NotAFile p.spelling)) := by
  simp [Rollback.note_file, h]

theorem note_file_dup_err {rb : Rollback} {p : FsPath} {fs : FS}
    (h1 : fs.isFile p.id = true)
    (h2 : rb.noted.any (fun kv => isSameFile fs p kv.1) = true) :
    rb.note_file p fs = (rb, fs, some (.AlreadyNoted p.spelling)) := by
  simp [Rollback.note_file, h1, h2]

theorem note_file_ok {rb : Rollback} {p : FsPath} {fs : FS}
    (h1 : fs.isFile p.id = true)
    (h2 : ∀ kv ∈ rb.noted, isSameFile fs p kv.1 = false)
    (h3 : fs.failTempDefault = false) (h4 : fs.cnt ∉ fs.failCopyTo)
    (h5 : p.id < fs.cnt) :
    (rb.note_file p fs).2.2 = none ∧
    (rb.note_file p fs).1.noted = rb.noted ++ [(p, fs.cnt)] ∧
    (rb.note_file p fs).1.new_files = rb.new_files ∧
    (rb.note_file p fs).1.new_dirs = rb.new_dirs ∧
    ((rb.note_file p fs).2.1).files fs.cnt = fs.files p.id ∧
    ((rb.note_file p fs).2.1).cnt = fs.cnt + 1 := by
  obtain ⟨c, hc⟩ := Option.isSome_iff_exists.mp h1
  have hany : rb.noted.any (fun kv => isSameFile fs p kv.1) = false := by
    rw [List.any_eq_false]
    intro kv hkv
    simp [h2 kv hkv]
  have hstep : rb.note_file p fs =
      ({ rb with noted := rb.noted ++ [(p, fs.cnt)] },
       ({ (fs.setFile fs.cnt "") with cnt := fs.cnt + 1 } : FS).setFile fs.cnt c, none) := by
    simp [Rollback.note_file, h1, hany, newTempDefault, h3, fsCopy, FS.setFile,
      Nat.ne_of_lt h5, hc, h4]
  rw [hstep]
  refine ⟨rfl, rfl, rfl, rfl, ?_, rfl⟩
  simp [hc]

/-! ## Claim theorems and witnesses -/

def pW1 : FsPath := { id := 1, parent := 0, spelling := "a.txt" }

def fsW1 : FS :=
  { files := fun j => if j = 1 then some "old" else if j = 2 then some "new" else none,
    dirs := [0], cnt := 10, failTempDefault := false, failTempIn := [],
    failCreate := [], failCopyTo := [1] }

def rbW1 : Rollback := { noted := [(pW1, 2)], new_files := [], new_dirs := [] }

/-- C1: for every session on which `commit` returns an error, the
filesystem state observed after `commit` returns equals the pre-commit
state: every noted original holds its pre-commit bytes and no new file or
new directory registered in this session exists. The state paired with the
returned error is the state after all rollback work, so the rollback is
complete before the error is returned. -/
theorem claim_C1_failed_commit_restores (rb : Rollback) (fs0 : FS) (e : Error)
    (hWF : WF rb fs0) (hfail : (rb.commit fs0).2 = some e) :
    RestoredNoted rb fs0 (rb.commit fs0).1 ∧ NoNewPaths rb (rb.commit fs0).1 := by
  have hcomm : rb.commit fs0 = ((rb.commit fs0).1, some e) := by
    rw [← hfail]
  exact commit_failure_core rb fs0 hWF (rb.commit fs0).1 e hcomm

/-- Witness for C1: a session with one noted file whose overwrite is denied
by the filesystem; commit fails and the state is restored. -/
theorem claim_C1_witness :
    RestoredNoted rbW1 fsW1 (rbW1.commit fsW1).1 ∧ NoNewPaths rbW1 (rbW1.commit fsW1).1 :=
  claim_C1_failed_commit_restores rbW1 fsW1 (.Commit "a.txt" "Permission denied")
    (by decide) (by decide)

/-- C3: if any item of the noted-files phase fails, commit returns that
phase's error and the final state is exactly the phase-A state with every
collected backup rolled back — the new-directory and new-file phases never
execute: every noted original is restored, the directory set is the
pre-commit one, and every new-file target is untouched. -/
theorem claim_C3_phaseA_failure_aborts (rb : Rollback) (fs0 : FS) (e : Error)
    (hWF : WF rb fs0)
    (hA2 : (commit_noted_files rb.noted fs0 []).2.2 = some e) :
    rb.commit fs0 =
      (rollbackBackups (commit_noted_files rb.noted fs0 []).2.1
        (commit_noted_files rb.noted fs0 []).1, some e) ∧
    RestoredNoted rb fs0 (rb.commit fs0).1 ∧
    (rb.commit fs0).1.dirs = fs0.dirs ∧
    (∀ kv ∈ rb.new_files, (rb.commit fs0).1.files kv.1.id = fs0.files kv.1.id) := by
  obtain ⟨hnd, hids⟩ := WF_hids rb fs0 hWF
  rcases hA : commit_noted_files rb.noted fs0 [] with ⟨fsA, bks, rA⟩
  rw [hA] at hA2
  dsimp only at hA2
  subst hA2
  have hcomm := commit_eq_phaseA_err hA
  obtain ⟨hres, hnew⟩ := commit_failure_core rb fs0 hWF _ e hcomm
  obtain ⟨nbks, a1, a2, a3, _, _, _, _, _, _, _⟩ :=
    phaseA_char rb.noted fs0 [] fsA bks (some e) hA hnd hids
  refine ⟨hcomm, ?_, ?_, ?_⟩
  · rw [hcomm]
    exact hres
  · rw [hcomm]
    show (rollbackBackups bks fsA).dirs = fs0.dirs
    rw [rollbackBackups_dirs, a3]
  · intro kv hkv
    have h1 := hnew.1 kv hkv
    rw [pathExists_eq_false] at h1
    have h0 : fs0.files kv.1.id = none :=
      (pathExists_eq_false.mp (hWF.2.2.2.1 _ (List.mem_map_of_mem _ hkv))).1
    rw [hcomm]
    show (rollbackBackups bks fsA).files kv.1.id = fs0.files kv.1.id
    rw [h1.1, h0]

/-- Witness for C3 at the one-noted-file failure scenario. -/
theorem claim_C3_witness :
    rbW1.commit fsW1 =
      (rollbackBackups (commit_noted_files rbW1.noted fsW1 []).2.1
        (commit_noted_files rbW1.noted fsW1 []).1,
       some (.Commit "a.txt" "Permission denied")) ∧
    RestoredNoted rbW1 fsW1 (rbW1.commit fsW1).1 ∧
    (rbW1.commit fsW1).1.dirs = fsW1.dirs ∧
    (∀ kv ∈ rbW1.new_files, (rbW1.commit fsW1).1.files kv.1.id = fsW1.files kv.1.id) :=
  claim_C3_phaseA_failure_aborts rbW1 fsW1 (.Commit "a.txt" "Permission denied")
    (by decide) (by decide)

/-- C4: in the noted-files phase, each item pushes a backup of its original
into the shared collection before overwriting it, the backup stays in the
collection even when that item's own overwrite fails, and at every point of
the phase (after any prefix of items) every already-overwritten original
has a backup holding its pre-phase bytes in the collection. -/
theorem claim_C4_backup_before_overwrite (L1 L2 : List (FsPath × Nat)) (fs : FS)
    (hnd : (origsOf (L1 ++ L2)).Nodup)
    (hids : ∀ kv ∈ L1 ++ L2, kv.1.id < fs.cnt ∧ kv.2 < fs.cnt ∧
      kv.2 ∉ origsOf (L1 ++ L2)) :
    (∀ kv ∈ L1,
      (commit_noted_files L1 fs []).1.files kv.1.id ≠ fs.files kv.1.id →
      ∃ b ∈ (commit_noted_files L1 fs []).2.1, b.original = kv.1.id ∧
        (commit_noted_files L1 fs []).1.files b.bid = fs.files kv.1.id) ∧
    (∀ (bks : List Backup) (item : FsPath × Nat) (b : Backup) (fs1 : FS) (e : String),
      Backup.new item.1 fs = .ok (b, fs1) →
      fsCopy item.2 item.1.id fs1 = .error e →
      commitNotedStep fs bks item = (fs1, bks ++ [b], some (.Commit item.1.spelling e))) := by
  constructor
  · have hmapapp : origsOf (L1 ++ L2) = origsOf L1 ++ origsOf L2 := List.map_append _ _ _
    have hndL1 : (origsOf L1).Nodup := by
      have hsub : (origsOf L1).Sublist (origsOf (L1 ++ L2)) := by
        rw [hmapapp]
        exact List.sublist_append_left _ _
      exact hsub.nodup hnd
    have hidsL1 : ∀ kv ∈ L1, kv.1.id < fs.cnt ∧ kv.2 < fs.cnt ∧ kv.2 ∉ origsOf L1 := by
      intro kv hkv
      refine ⟨(hids kv (List.mem_append_left _ hkv)).1,
        (hids kv (List.mem_append_left _ hkv)).2.1, fun hmem => ?_⟩
      refine (hids kv (List.mem_append_left _ hkv)).2.2 ?_
      rw [hmapapp]
      exact List.mem_append_left _ hmem
    rcases hA : commit_noted_files L1 fs [] with ⟨fsA, bks, rA⟩
    obtain ⟨nbks, a1, _, _, _, _, _, a7, _, a9, _⟩ :=
      phaseA_char L1 fs [] fsA bks rA hA hndL1 hidsL1
    rw [List.nil_append] at a1
    subst a1
    intro kv hkv hneq
    rcases a9 kv hkv with hsame | ⟨b, hb, hbo⟩
    · exact absurd hsame hneq
    · exact ⟨b, hb, hbo, by rw [(a7 b hb).2.2.1, hbo]⟩
  · intro bks item b fs1 e hB hC
    exact commitNotedStep_copy_err hB hC

/-- Witness for C4 at the one-noted-file failure scenario. -/
theorem claim_C4_witness :
    (∀ kv ∈ [(pW1, 2)],
      (commit_noted_files [(pW1, 2)] fsW1 []).1.files kv.1.id ≠ fsW1.files kv.1.id →
      ∃ b ∈ (commit_noted_files [(pW1, 2)] fsW1 []).2.1, b.original = kv.1.id ∧
        (commit_noted_files [(pW1, 2)] fsW1 []).1.files b.bid = fsW1.files kv.1.id) ∧
    (∀ (bks : List Backup) (item : FsPath × Nat) (b : Backup) (fs1 : FS) (e : String),
      Backup.new item.1 fsW1 = .ok (b, fs1) →
      fsCopy item.2 item.1.id fs1 = .error e →
      commitNotedStep fsW1 bks item = (fs1, bks ++ [b], some (.Commit item.1.spelling e))) :=
  claim_C4_backup_before_overwrite [(pW1, 2)] [] fsW1 (by decide) (by decide)

/-- C5: registering an existing file with `note_file`, writing content `C`
to the staging path returned by `get_noted_file`, and committing
successfully makes the original hold `C`. -/
theorem claim_C5_round_trip (rb : Rollback) (fs0 : FS) (p : FsPath) (t : Nat) (C : String)
    (hreg : (rb.note_file p fs0).2.2 = none)
    (hget : (rb.note_file p fs0).1.get_noted_file p (rb.note_file p fs0).2.1 = some t)
    (hWF : WF (rb.note_file p fs0).1 (fsWrite t C (rb.note_file p fs0).2.1))
    (hcommit : ((rb.note_file p fs0).1.commit (fsWrite t C (rb.note_file p fs0).2.1)).2
      = none) :
    (((rb.note_file p fs0).1.commit (fsWrite t C (rb.note_file p fs0).2.1)).1).files p.id
      = some C := by
  obtain ⟨kv, hkv, hkv2, hkvid⟩ := get_noted_file_mem hget
  have hcomm : (rb.note_file p fs0).1.commit (fsWrite t C (rb.note_file p fs0).2.1) =
      (((rb.note_file p fs0).1.commit (fsWrite t C (rb.note_file p fs0).2.1)).1, none) := by
    rw [← hcommit]
  have hval := commit_success_noted (rb.note_file p fs0).1
    (fsWrite t C (rb.note_file p fs0).2.1) hWF _ hcomm kv hkv
  rw [← hkvid, hval, hkv2]
  simp [fsWrite]

def fsW5 : FS :=
  { files := fun j => if j = 1 then some "old" else none,
    dirs := [0], cnt := 10, failTempDefault := false, failTempIn := [],
    failCreate := [], failCopyTo := [] }

/-- Witness for C5: note one file, write "C" to its staging path, commit. -/
theorem claim_C5_witness :
    (((Rollback.empty.note_file pW1 fsW5).1.commit
        (fsWrite 10 "C" (Rollback.empty.note_file pW1 fsW5).2.1)).1).files pW1.id
      = some "C" :=
  claim_C5_round_trip Rollback.empty fsW5 pW1 10 "C"
    (by decide) (by decide) (by decide) (by decide)

/-- C7: `note_file` fails with `NotAFile` when the original is not an
existing regular file; fails with `AlreadyNoted` when the original matches
an already-noted key exactly or by filesystem equivalence; and otherwise
allocates a fresh staging temp file (the next fresh identity `fs.cnt`),
copies the original's current bytes into it, and appends the
original-to-staging mapping to the noted registry, leaving the other
registries unchanged. -/
theorem claim_C7_note_file_spec (rb : Rollback) (p : FsPath) (fs : FS) :
    (fs.isFile p.id = false → rb.note_file p fs = (rb, fs, some (.NotAFile p.spelling))) ∧
    (fs.isFile p.id = true → (∃ kv ∈ rb.noted, isSameFile fs p kv.1 = true) →
      rb.note_file p fs = (rb, fs, some (.AlreadyNoted p.spelling))) ∧
    (fs.isFile p.id = true → (∃ kv ∈ rb.noted, kv.1 = p) →
      rb.note_file p fs = (rb, fs, some (.AlreadyNoted p.spelling))) ∧
    (fs.isFile p.id = true → (∀ kv ∈ rb.noted, isSameFile fs p kv.1 = false) →
      fs.failTempDefault = false → fs.cnt ∉ fs.failCopyTo → p.id < fs.cnt →
      (rb.note_file p fs).2.2 = none ∧
      (rb.note_file p fs).1.noted = rb.noted ++ [(p, fs.cnt)] ∧
      (rb.note_file p fs).1.new_files = rb.new_files ∧
      (rb.note_file p fs).1.new_dirs = rb.new_dirs ∧
      ((rb.note_file p fs).2.1).files fs.cnt = fs.files p.id ∧
      ((rb.note_file p fs).2.1).cnt = fs.cnt + 1) := by
  refine ⟨fun h => note_file_notfile_err h, fun h1 hex => ?_, fun h1 hex => ?_,
    fun h1 h2 h3 h4 h5 => note_file_ok h1 h2 h3 h4 h5⟩
  · obtain ⟨kv, hkv, hsame⟩ := hex
    refine note_file_dup_err h1 (List.any_eq_true.mpr ⟨kv, hkv, ?_⟩)
    simp [hsame]
  · obtain ⟨kv, hkv, hkvp⟩ := hex
    refine note_file_dup_err h1 (List.any_eq_true.mpr ⟨kv, hkv, ?_⟩)
    have hsame : isSameFile fs p kv.1 = true := by
      unfold isSameFile
      rw [hkvp]
      have : fs.pathExists p.id = true := by
        unfold FS.pathExists
        rw [h1]
        rfl
      simp [this]
    simp [hsame]

def pW7 : FsPath := { id := 5, parent := 0, spelling := "missing/path" }

/-- Witness for C7: the `NotAFile` branch on a missing path, the exact
duplicate branch, and the success branch, each at a concrete input. -/
theorem claim_C7_witness :
    Rollback.empty.note_file pW7 fsW5 = (Rollback.empty, fsW5, some (.NotAFile "missing/path")) ∧
    rbW1.note_file pW1 fsW1 = (rbW1, fsW1, some (.AlreadyNoted "a.txt")) ∧
    ((Rollback.empty.note_file pW1 fsW5).2.2 = none ∧
      (Rollback.empty.note_file pW1 fsW5).1.noted = [] ++ [(pW1, 10)] ∧
      (Rollback.empty.note_file pW1 fsW5).1.new_files = [] ∧
      (Rollback.empty.note_file pW1 fsW5).1.new_dirs = [] ∧
      ((Rollback.empty.note_file pW1 fsW5).2.1).files 10 = fsW5.files pW1.id ∧
      ((Rollback.empty.note_file pW1 fsW5).2.1).cnt = 11) :=
  ⟨(claim_C7_note_file_spec Rollback.empty pW7 fsW5).1 (by decide),
   (claim_C7_note_file_spec rbW1 pW1 fsW1).2.2.1 (by decide) ⟨(pW1, 2), by decide, by decide⟩,
   (claim_C7_note_file_spec Rollback.empty pW1 fsW5).2.2.2 (by decide)
     (by decide) (by decide) (by decide) (by decide)⟩

/-- C8: whenever `note_file`, `new_file` or `new_dir` returns an error, the
session and the filesystem are exactly as they were before the call: no
entry is inserted on a failing registration. -/
theorem claim_C8_failed_registration_no_insert (rb : Rollback) (p : FsPath) (fs : FS) :
    ((rb.note_file p fs).2.2.isSome = true →
      (rb.note_file p fs).1 = rb ∧ (rb.note_file p fs).2.1 = fs) ∧
    ((rb.new_file p fs).2.2.isSome = true →
      (rb.new_file p fs).1 = rb ∧ (rb.new_file p fs).2.1 = fs) ∧
    ((rb.new_dir p fs).2.2.isSome = true →
      (rb.new_dir p fs).1 = rb ∧ (rb.new_dir p fs).2.1 = fs) := by
  refine ⟨fun h => ?_, fun h => ?_, fun h => ?_⟩
  · by_cases h1 : fs.isFile p.id = true
    · by_cases h2 : rb.noted.any (fun kv => isSameFile fs p kv.1) = true
      · rw [note_file_dup_err h1 h2]
        exact ⟨rfl, rfl⟩
      · rw [Bool.not_eq_true] at h2
        cases h3 : newTempDefault fs with
        | error eT =>
          unfold Rollback.note_file
          simp [h1, h2, h3]
        | ok pr =>
          obtain ⟨t, fs1⟩ := pr
          cases h4 : fsCopy p.id t fs1 with
          | error eC =>
            unfold Rollback.note_file
            simp [h1, h2, h3, h4]
          | ok fs2 =>
            exfalso
            unfold Rollback.note_file at h
            simp [h1, h2, h3, h4] at h
    · rw [Bool.not_eq_true] at h1
      rw [note_file_notfile_err h1]
      exact ⟨rfl, rfl⟩
  · by_cases h1 : fs.pathExists p.id = true
    · rw [new_file_exists_err h1]
      exact ⟨rfl, rfl⟩
    · rw [Bool.not_eq_true] at h1
      by_cases h2 : rb.new_files.any (fun kv => kv.1 == p) = true
      · rw [new_file_dup_err h1 h2]
        exact ⟨rfl, rfl⟩
      · rw [Bool.not_eq_true] at h2
        by_cases h3 : hasExtension p.spelling = true
        · cases h4 : newTempDefault fs with
          | error eT =>
            unfold Rollback.new_file
            simp [h1, h2, h3, h4]
          | ok pr =>
            obtain ⟨t, fs1⟩ := pr
            exfalso
            unfold Rollback.new_file at h
            simp [h1, h2, h3, h4] at h
        · rw [Bool.not_eq_true] at h3
          unfold Rollback.new_file
          simp [h1, h2, h3]
  · by_cases h1 : fs.pathExists p.id = true
    · rw [new_dir_exists_err h1]
      exact ⟨rfl, rfl⟩
    · rw [Bool.not_eq_true] at h1
      by_cases h2 : rb.new_dirs.contains p = true
      · rw [new_dir_dup_err h1 (by simpa using h2)]
        exact ⟨rfl, rfl⟩
      · have h2n : p ∉ rb.new_dirs := by simpa using h2
        by_cases h3 : p.spelling = "" ∨ hasExtension p.spelling = true
        · unfold Rollback.new_dir
          simp only [h1, Bool.false_eq_true, if_neg, not_false_eq_true, ite_false]
          rcases h3 with h3 | h3 <;> simp [h2n, h3]
        · rw [new_dir_ok h1 h2n h3] at h
          simp at h

/-- Witness for C8: each of the three registrations failing at a concrete
input leaves the session and filesystem untouched. -/
theorem claim_C8_witness :
    ((rbW1.note_file pW7 fsW1).1 = rbW1 ∧ (rbW1.note_file pW7 fsW1).2.1 = fsW1) ∧
    ((rbW1.new_file pW1 fsW1).1 = rbW1 ∧ (rbW1.new_file pW1 fsW1).2.1 = fsW1) ∧
    ((rbW1.new_dir pW1 fsW1).1 = rbW1 ∧ (rbW1.new_dir pW1 fsW1).2.1 = fsW1) :=
  ⟨(claim_C8_failed_registration_no_insert rbW1 pW7 fsW1).1 (by decide),
   (claim_C8_failed_registration_no_insert rbW1 pW1 fsW1).2.1 (by decide),
   (claim_C8_failed_registration_no_insert rbW1 pW1 fsW1).2.2 (by decide)⟩

/-- C9: `Backup::new` allocates the temporary backup file in the original's
parent directory and copies the original's bytes into it; `rollback`
replaces the original's content with the backup's content; and when
persisting the backup over the original fails, the implementation panics
(process abort) rather than returning an error. -/
theorem claim_C9_backup_spec (p : FsPath) (fs : FS)
    (hid : p.id < fs.cnt) (hti : p.parent ∉ fs.failTempIn)
    (hfile : (fs.files p.id).isSome = true) (hcp : fs.cnt ∉ fs.failCopyTo) :
    (∃ b fs', Backup.new p fs = .ok (b, fs') ∧ b.dir = p.parent ∧ b.original = p.id ∧
      fs'.files b.bid = fs.files p.id) ∧
    (∀ (b : Backup) (fs2 fs3 : FS), b.bid ≠ b.original →
      b.rollbackChecked fs2 = .ok fs3 → fs3.files b.original = fs2.files b.bid) ∧
    (∀ (b : Backup) (fs2 : FS), fs2.files b.bid = none →
      b.rollbackChecked fs2 =
        .panicked "Generated backups guarantee that both original and backup exist") := by
  refine ⟨?_, ?_, ?_⟩
  · obtain ⟨c, hc⟩ := Option.isSome_iff_exists.mp hfile
    refine ⟨{ bid := fs.cnt, dir := p.parent, original := p.id },
      ({ (fs.setFile fs.cnt "") with cnt := fs.cnt + 1 } : FS).setFile fs.cnt c,
      ?_, rfl, rfl, ?_⟩
    · simp [Backup.new, newTempIn, hti, fsCopy, FS.setFile, Nat.ne_of_lt hid, hc, hcp]
    · simp [hc]
  · intro b fs2 fs3 hne hok
    unfold Backup.rollbackChecked fsPersist at hok
    rcases hv : fs2.files b.bid with _ | c
    · rw [hv] at hok
      exact absurd hok (by simp)
    · rw [hv] at hok
      simp only [Backup.POr.ok.injEq] at hok
      subst hok
      simp [hv, Ne.symm hne]
  · intro b fs2 hnone
    unfold Backup.rollbackChecked fsPersist
    rw [hnone]

/-- Witness for C9 at a concrete original and filesystem. -/
theorem claim_C9_witness :
    (∃ b fs', Backup.new pW1 fsW5 = .ok (b, fs') ∧ b.dir = pW1.parent ∧
      b.original = pW1.id ∧ fs'.files b.bid = fsW5.files pW1.id) ∧
    (∀ (b : Backup) (fs2 fs3 : FS), b.bid ≠ b.original →
      b.rollbackChecked fs2 = .ok fs3 → fs3.files b.original = fs2.files b.bid) ∧
    (∀ (b : Backup) (fs2 : FS), fs2.files b.bid = none →
      b.rollbackChecked fs2 =
        .panicked "Generated backups guarantee that both original and backup exist") :=
  claim_C9_backup_spec pW1 fsW5 (by decide) (by decide) (by decide) (by decide)

/-- C10: in `new_file` and `new_dir` the on-disk existence check runs
before the duplicate check and before the path-shape check: an existing
target yields `NewItemAlreadyExists` regardless of shape, and a
non-existing but already-registered target yields `AlreadyNoted` regardless
of shape. -/
theorem claim_C10_check_order (rb : Rollback) (p : FsPath) (fs : FS) :
    (fs.pathExists p.id = true →
      rb.new_file p fs = (rb, fs, some (.NewItemAlreadyExists p.spelling)) ∧
      rb.new_dir p fs = (rb, fs, some (.NewItemAlreadyExists p.spelling))) ∧
    (fs.pathExists p.id = false →
      (rb.new_files.any (fun kv => kv.1 == p) = true →
        rb.new_file p fs = (rb, fs, some (.AlreadyNoted p.spelling))) ∧
      (p ∈ rb.new_dirs →
        rb.new_dir p fs = (rb, fs, some (.AlreadyNoted p.spelling)))) := by
  refine ⟨fun h1 => ⟨new_file_exists_err h1, new_dir_exists_err h1⟩,
    fun h1 => ⟨fun h2 => new_file_dup_err h1 h2, fun h2 => new_dir_dup_err h1 h2⟩⟩

def pW10 : FsPath := { id := 1, parent := 0, spelling := "a.txt" }

def pW10dir : FsPath := { id := 7, parent := 0, spelling := "weird.txt" }

def rbW10 : Rollback :=
  { noted := [], new_files := [], new_dirs := [pW10dir] }

/-- Witness for C10: `new_dir` on an existing extension-bearing file
returns `NewItemAlreadyExists` (not `NotADir`), and `new_dir` on a
non-existing registered extension-bearing target returns `AlreadyNoted`
(not `NotADir`). -/
theorem claim_C10_witness :
    (rbW10.new_file pW10 fsW5 = (rbW10, fsW5, some (.NewItemAlreadyExists "a.txt")) ∧
      rbW10.new_dir pW10 fsW5 = (rbW10, fsW5, some (.NewItemAlreadyExists "a.txt"))) ∧
    (rbW10.new_dir pW10dir fsW5 = (rbW10, fsW5, some (.AlreadyNoted "weird.txt"))) :=
  ⟨(claim_C10_check_order rbW10 pW10 fsW5).1 (by decide),
   ((claim_C10_check_order rbW10 pW10dir fsW5).2 (by decide)).2 (by decide)⟩

/-- C2: in the new-directory phase existence is checked before creation and
an existing target fails the commit with `RepeatedNewDir`. Registering
`new_dir` on two differently-spelled paths aliasing the same target
succeeds at registration (the duplicate is not detected there), and commit
then returns `RepeatedNewDir` for the aliased spelling with all earlier
phases rolled back. -/
theorem claim_C2_alias_dup_detected_at_commit
    (rb : Rollback) (fs0 : FS) (p q : FsPath)
    (hdirs : rb.new_dirs = [p])
    (halias : q.id = p.id)
    (hexact : q ∉ rb.new_dirs)
    (hnex : fs0.pathExists q.id = false)
    (hshape : ¬(q.spelling = "" ∨ hasExtension q.spelling = true))
    (hWF2 : WF { rb with new_dirs := [p, q] } fs0)
    (hAok : (commit_noted_files rb.noted fs0 []).2.2 = none)
    (hcreate : p.id ∉ fs0.failCreate) :
    (rb.new_dir q fs0).2.2 = none ∧
    (rb.new_dir q fs0).1 = { rb with new_dirs := [p, q] } ∧
    (({ rb with new_dirs := [p, q] } : Rollback).commit fs0).2 =
      some (.RepeatedNewDir q.spelling) ∧
    RestoredNoted rb fs0 ((({ rb with new_dirs := [p, q] } : Rollback).commit fs0).1) ∧
    NoNewPaths { rb with new_dirs := [p, q] }
      ((({ rb with new_dirs := [p, q] } : Rollback).commit fs0).1) := by
  have hreg := new_dir_ok hnex hexact hshape
  obtain ⟨w1, w2, w3, w4, w5, w6, w7, w8, w9⟩ := hWF2
  have hq_mem : q.id ∈ newDirIds { rb with new_dirs := [p, q] } := by
    simp [newDirIds]
  have hq_lt : q.id < fs0.cnt :=
    w9 q.id (List.mem_append_left _ (List.mem_append_right _ hq_mem))
  have hq_not_noted : q.id ∉ notedIds rb := w7 q.id hq_mem
  have hWF2' : WF { rb with new_dirs := [p, q] } fs0 :=
    ⟨w1, w2, w3, w4, w5, w6, w7, w8, w9⟩
  obtain ⟨hnd, hids⟩ := WF_hids { rb with new_dirs := [p, q] } fs0 hWF2'
  rcases hA : commit_noted_files rb.noted fs0 [] with ⟨fsA, bks, rA⟩
  rw [hA] at hAok
  dsimp only at hAok
  subst hAok
  obtain ⟨nbks, a1, a2, a3, a4, a5, _, _, _, _, _⟩ :=
    phaseA_char rb.noted fs0 [] fsA bks none hA hnd hids
  have hq0 := pathExists_eq_false.mp hnex
  have hnexA : fsA.pathExists q.id = false := by
    rw [pathExists_eq_false]
    constructor
    · rw [a5 q.id hq_lt hq_not_noted]
      exact hq0.1
    · rw [a3]
      exact hq0.2
  have hnexAp : fsA.pathExists p.id = false := by
    rw [← halias]
    exact hnexA
  have hfailA : p.id ∉ fsA.failCreate := by
    rw [env_failCreate a4]
    exact hcreate
  have hcontains : ((p.id :: fsA.dirs).contains q.id) = true := by
    simp [halias]
  have hB : commit_new_dirs [p, q] fsA =
      ({ fsA with dirs := p.id :: fsA.dirs }, some (.RepeatedNewDir q.spelling)) := by
    have hq1 : ({ fsA with dirs := p.id :: fsA.dirs } : FS).pathExists q.id = true := by
      unfold FS.pathExists
      rw [hcontains]
      simp
    simp [commit_new_dirs, hnexAp, fsCreateDirAll, hfailA, hq1]
  have hcomm := @commit_eq_phaseB_err { rb with new_dirs := [p, q] } fs0 fsA _ bks _ hA hB
  obtain ⟨hres, hnew⟩ :=
    commit_failure_core { rb with new_dirs := [p, q] } fs0 hWF2' _ _ hcomm
  refine ⟨by rw [hreg], ?_, by rw [hcomm], ?_, ?_⟩
  · rw [hreg, hdirs]
    rfl
  · rw [hcomm]
    exact hres
  · rw [hcomm]
    exact hnew

def pC2 : FsPath := { id := 3, parent := 0, spelling := "x" }

def qC2 : FsPath := { id := 3, parent := 0, spelling := "./x" }

def rbC2 : Rollback := { noted := [], new_files := [], new_dirs := [pC2] }

/-- Witness for C2: `new_dir("x")` then `new_dir("./x")` on the same
target; registration of the alias succeeds and commit returns
`RepeatedNewDir`. -/
theorem claim_C2_witness :
    (rbC2.new_dir qC2 fsW5).2.2 = none ∧
    (rbC2.new_dir qC2 fsW5).1 = { rbC2 with new_dirs := [pC2, qC2] } ∧
    (({ rbC2 with new_dirs := [pC2, qC2] } : Rollback).commit fsW5).2 =
      some (.RepeatedNewDir "./x") ∧
    RestoredNoted rbC2 fsW5 ((({ rbC2 with new_dirs := [pC2, qC2] } : Rollback).commit fsW5).1) ∧
    NoNewPaths { rbC2 with new_dirs := [pC2, qC2] }
      ((({ rbC2 with new_dirs := [pC2, qC2] } : Rollback).commit fsW5).1) :=
  claim_C2_alias_dup_detected_at_commit rbC2 fsW5 pC2 qC2
    (by decide) (by decide) (by decide) (by decide) (by decide) (by decide)
    (by decide) (by decide)

def dC61 : FsPath := { id := 3, parent := 0, spelling := "d1" }

def dC62 : FsPath := { id := 4, parent := 0, spelling := "d2" }

def fsC6 : FS :=
  { files := fun _ => none, dirs := [], cnt := 10, failTempDefault := false,
    failTempIn := [], failCreate := [3], failCopyTo := [] }

/-- C6 counterexample: in the new-directory phase a failing item prevents
its siblings from being attempted. With two registered directories where
the first one's creation fails, the phase evaluates its overall result to
that error while the second directory — whose own creation would have
succeeded (it does not exist and its creation is not blocked) — was never
attempted: it left no trace in the resulting state. -/
theorem claim_C6_counterexample :
    (commit_new_dirs [dC61, dC62] fsC6).2 = some (.Commit "d1" "Permission denied") ∧
    dC62.id ∉ (commit_new_dirs [dC61, dC62] fsC6).1.dirs ∧
    fsC6.pathExists dC62.id = false ∧ dC62.id ∉ fsC6.failCreate := by
  decide

/-- C6 (amended): only the noted-files phase attempts every registered item
before its overall result is evaluated — processing `L1 ++ L2` always
continues into `L2` from the state `L1` left, whatever `L1`'s outcome. The
new-directory and new-file phases are sequential and return at the first
failing item (existence check or creation failure), leaving the state as it
was at that item, so later siblings are not attempted. -/
theorem claim_C6_amended (L1 L2 : List (FsPath × Nat)) (fs : FS) (bks : List Backup)
    (d : FsPath) (restD : List FsPath) (fsb fsb2 : FS)
    (item : FsPath × Nat) (restF : List (FsPath × Nat)) (fsc fsc2 : FS)
    (hdex : fsb.pathExists d.id = true)
    (hdnex : fsb2.pathExists d.id = false) (hdfail : d.id ∈ fsb2.failCreate)
    (hfex : fsc.pathExists item.1.id = true)
    (hfnex : fsc2.pathExists item.1.id = false) (hffail : item.1.id ∈ fsc2.failCreate) :
    commit_noted_files (L1 ++ L2) fs bks =
      ((commit_noted_files L2 (commit_noted_files L1 fs bks).1
          (commit_noted_files L1 fs bks).2.1).1,
       (commit_noted_files L2 (commit_noted_files L1 fs bks).1
          (commit_noted_files L1 fs bks).2.1).2.1,
       combineRes
         (commit_noted_files L2 (commit_noted_files L1 fs bks).1
            (commit_noted_files L1 fs bks).2.1).2.2
         (commit_noted_files L1 fs bks).2.2) ∧
    commit_new_dirs (d :: restD) fsb = (fsb, some (.RepeatedNewDir d.spelling)) ∧
    commit_new_dirs (d :: restD) fsb2 = (fsb2, some (.Commit d.spelling "Permission denied")) ∧
    commit_new_files (item :: restF) fsc = (fsc, some (.RepeatedNewFile item.1.spelling)) ∧
    commit_new_files (item :: restF) fsc2 =
      (fsc2, some (.Commit item.1.spelling "Permission denied")) := by
  obtain ⟨pp, tt⟩ := item
  refine ⟨commit_noted_files_append L1 L2 fs bks, ?_, ?_, ?_, ?_⟩
  · simp [commit_new_dirs, hdex]
  · simp [commit_new_dirs, hdnex, fsCreateDirAll, hdfail]
  · simp [commit_new_files, hfex]
  · simp [commit_new_files, hfnex, fsCreateFile, hffail]

def fsC6b : FS :=
  { files := fun _ => none, dirs := [3], cnt := 10, failTempDefault := false,
    failTempIn := [], failCreate := [], failCopyTo := [] }

def pC6f : FsPath := { id := 4, parent := 0, spelling := "f.txt" }

def fsC6c : FS :=
  { files := fun j => if j = 4 then some "x" else none, dirs := [], cnt := 10,
    failTempDefault := false, failTempIn := [], failCreate := [], failCopyTo := [] }

def fsC6d : FS :=
  { files := fun _ => none, dirs := [], cnt := 10, failTempDefault := false,
    failTempIn := [], failCreate := [4], failCopyTo := [] }

/-- Witness for the amended C6 at concrete inputs. -/
theorem claim_C6_amended_witness :
    commit_noted_files ([(pW1, 2)] ++ []) fsW1 [] =
      ((commit_noted_files [] (commit_noted_files [(pW1, 2)] fsW1 []).1
          (commit_noted_files [(pW1, 2)] fsW1 []).2.1).1,
       (commit_noted_files [] (commit_noted_files [(pW1, 2)] fsW1 []).1
          (commit_noted_files [(pW1, 2)] fsW1 []).2.1).2.1,
       combineRes
         (commit_noted_files [] (commit_noted_files [(pW1, 2)] fsW1 []).1
            (commit_noted_files [(pW1, 2)] fsW1 []).2.1).2.2
         (commit_noted_files [(pW1, 2)] fsW1 []).2.2) ∧
    commit_new_dirs (dC61 :: [dC62]) fsC6b = (fsC6b, some (.RepeatedNewDir "d1")) ∧
    commit_new_dirs (dC61 :: [dC62]) fsC6 = (fsC6, some (.Commit "d1" "Permission denied")) ∧
    commit_new_files ((pC6f, 9) :: []) fsC6c = (fsC6c, some (.RepeatedNewFile "f.txt")) ∧
    commit_new_files ((pC6f, 9) :: []) fsC6d = (fsC6d, some (.Commit "f.txt" "Permission denied")) :=
  claim_C6_amended [(pW1, 2)] [] fsW1 [] dC61 [dC62] fsC6b fsC6 (pC6f, 9) [] fsC6c fsC6d
    (by decide) (by decide) (by decide) (by decide) (by decide) (by decide)
